import Mathlib

/-!
Shallow embedding of the Hot-or-Not betting engine from
`src/lib/shared_utils/src/canister_specific/individual_user_template/types/hot_or_not/mod.rs`.

Modelling conventions:
* Timestamps (`SystemTime`) are whole seconds as `Nat`; `duration_since(..).as_secs()`
  becomes truncated `Nat` subtraction, used only under a `created_at ≤ now` hypothesis
  (the Rust code panics when the clock runs backwards).
* Machine integers (`u64`, `u8`) are `Nat` with explicit reduction modulo `2 ^ 64`
  on the arithmetic the source performs on `u64` values (`u64add`, `u64mul`), and
  modulo `256` on the `as u8` casts.
* Rust `BTreeMap` values are association lists of key/value pairs kept in strictly
  increasing key order by `minsert`; `last_key_value` is `mlast`, `get` is `mlookup`.
* A `Principal` is an abstract identifier modelled as `Nat`; `Principal::anonymous()`
  is the distinguished value `anonymousPrincipal`.
* Executions that panic (`unwrap` on `None`) are modelled by returning `none`.
-/

set_option maxHeartbeats 1000000

namespace HotOrNot

/-- Ordered-map lookup (`BTreeMap::get`): first entry whose key matches. -/
def mlookup {α : Type} (k : Nat) : List (Nat × α) → Option α
  | [] => none
  | (k', v) :: t => if k = k' then some v else mlookup k t

/-- Ordered-map insertion (`BTreeMap::insert` / `entry(..).or_default()` materialisation):
keeps the list sorted by strictly increasing key, replacing the value of an existing key. -/
def minsert {α : Type} (k : Nat) (v : α) : List (Nat × α) → List (Nat × α)
  | [] => [(k, v)]
  | (k', v') :: t =>
    if k < k' then (k, v) :: (k', v') :: t
    else if k = k' then (k, v) :: t
    else (k', v') :: minsert k v t

/-- Ordered-map `last_key_value`: the entry with the greatest key
(the physically last entry of the sorted list). -/
def mlast {α : Type} : List (Nat × α) → Option (Nat × α)
  | [] => none
  | [e] => some e
  | _ :: e :: t => mlast (e :: t)

/-- Keys are in strictly increasing order (the `BTreeMap` representation invariant). -/
def SortedKeys {α : Type} (l : List (Nat × α)) : Prop :=
  List.Pairwise (fun a b => a.1 < b.1) l

instance {α : Type} (l : List (Nat × α)) : Decidable (SortedKeys l) := by
  unfold SortedKeys; infer_instance

/-- Word size of the Rust `u64` arithmetic. -/
def U64MOD : Nat := 2 ^ 64

/-- Wrapping `u64` addition. -/
def u64add (a b : Nat) : Nat := (a + b) % U64MOD

/-- Wrapping `u64` multiplication. -/
def u64mul (a b : Nat) : Nat := (a * b) % U64MOD

/-- The anonymous sentinel (`Principal::anonymous()`). -/
def anonymousPrincipal : Nat := 0

def MAXIMUM_NUMBER_OF_SLOTS : Nat := 48

def DURATION_OF_EACH_SLOT_IN_SECONDS : Nat := 60 * 60

def TOTAL_DURATION_OF_ALL_SLOTS_IN_SECONDS : Nat :=
  MAXIMUM_NUMBER_OF_SLOTS * DURATION_OF_EACH_SLOT_IN_SECONDS

/-- Modelled from the spec: `HOT_OR_NOT_BET_CREATOR_COMMISSION_PERCENTAGE` is declared
in the `utility_token::token_event` module, which is not under `src/`; spec §6 fixes it
to 10, and the source comment "Commission is 10% of total pot" agrees. -/
def HOT_OR_NOT_BET_CREATOR_COMMISSION_PERCENTAGE : Nat := 10

/-- Modelled from the spec: `HOT_OR_NOT_BET_WINNINGS_MULTIPLIER` is declared in the
`utility_token::token_event` module, which is not under `src/`; spec §6 fixes it to 2. -/
def HOT_OR_NOT_BET_WINNINGS_MULTIPLIER : Nat := 2

inductive BetDirection
  | Hot
  | Not
deriving DecidableEq, Repr

inductive BetPayout
  | NotCalculatedYet
  | Calculated (amount : Nat)
deriving DecidableEq, Repr

inductive RoomBetPossibleOutcomes
  | BetOngoing
  | HotWon
  | NotWon
  | Draw
deriving DecidableEq, Repr

structure BetDetails where
  amount : Nat
  bet_direction : BetDirection
  payout : BetPayout
  bet_maker_canister_id : Nat
deriving DecidableEq, Repr

structure RoomDetails where
  bets_made : List (Nat × BetDetails)
  bet_outcome : RoomBetPossibleOutcomes
  room_bets_total_pot : Nat
  total_hot_bets : Nat
  total_not_bets : Nat
deriving DecidableEq, Repr

instance : Inhabited RoomDetails :=
  ⟨⟨[], .BetOngoing, 0, 0, 0⟩⟩

structure SlotDetails where
  room_details : List (Nat × RoomDetails)
deriving DecidableEq, Repr

instance : Inhabited SlotDetails := ⟨⟨[]⟩⟩

structure AggregateStats where
  total_number_of_hot_bets : Nat
  total_number_of_not_bets : Nat
  total_amount_bet : Nat
deriving DecidableEq, Repr

instance : Inhabited AggregateStats := ⟨⟨0, 0, 0⟩⟩

/-- Per-post engine state.  `FeedScore` is outside the embedded module and never touched
by the embedded operations, so it is carried as a bare `Nat`. -/
structure HotOrNotDetails where
  hot_or_not_feed_score : Nat
  aggregate_stats : AggregateStats
  slot_history : List (Nat × SlotDetails)
deriving DecidableEq, Repr

instance : Inhabited HotOrNotDetails := ⟨⟨0, default, []⟩⟩

/-- The surrounding post.  Modelled from the spec: the full `Post` struct lives outside
`src/`; per spec §1 the engine observes only `id`, `created_at` and `hot_or_not_details`. -/
structure Post where
  id : Nat
  created_at : Nat
  hot_or_not_details : Option HotOrNotDetails
deriving DecidableEq, Repr

inductive BettingStatus
  | BettingOpen (started_at : Nat) (number_of_participants : Nat) (ongoing_slot : Nat)
      (ongoing_room : Nat) (has_this_user_participated_in_this_post : Option Bool)
  | BettingClosed
deriving DecidableEq, Repr

/-- Modelled from the spec: the error enum is declared in a module not under `src/`;
spec §6 lists exactly these three variants as the error taxonomy of `place_bet`. -/
inductive BetOnCurrentlyViewingPostError
  | UserNotLoggedIn
  | BettingClosed
  | UserAlreadyParticipatedInThisPost
deriving DecidableEq, Repr

/-- Modelled from the spec: the payload of the commission event (spec §3, §4.6) — the
`CommissionFromHotOrNotBet` variant carrying the five identifying fields. -/
inductive HotOrNotOutcomePayoutEvent
  | CommissionFromHotOrNotBet (post_canister_id : Nat) (post_id : Nat) (slot_id : Nat)
      (room_id : Nat) (room_pot_total_amount : Nat)
deriving DecidableEq, Repr

/-- Modelled from the spec: only the `HotOrNotOutcomePayout` variant of `TokenEvent`
is specified (spec §3, §4.7). -/
inductive TokenEvent
  | HotOrNotOutcomePayout (amount : Nat) (details : HotOrNotOutcomePayoutEvent)
      (timestamp : Nat)
deriving DecidableEq, Repr

/-- Modelled from the spec: the token collaborator (spec §4.7) exposes a synchronous,
infallible `handle_token_event`; we record the sequence of events it receives. -/
structure TokenBalance where
  events : List TokenEvent
deriving DecidableEq, Repr

def TokenBalance.handle_token_event (tb : TokenBalance) (ev : TokenEvent) : TokenBalance :=
  ⟨tb.events ++ [ev]⟩

/-- The `((numerator / denominator) + 1) as u8` computation of
`get_hot_or_not_betting_status_for_this_post`. -/
def ongoingSlotOf (elapsed : Nat) : Nat :=
  (elapsed / DURATION_OF_EACH_SLOT_IN_SECONDS + 1) % 256

/-- The currently active room of a slot: the last entry of the slot's room map, with
the `(&1, default)` fallback of the source when the map is absent or empty. -/
def currentRoomOf (d : HotOrNotDetails) (slot : Nat) : Nat × RoomDetails :=
  (mlast ((mlookup slot d.slot_history).getD default).room_details).getD (1, default)

/-- Post-wide participation scan over a present `HotOrNotDetails`. -/
def scanForPrincipal (d : HotOrNotDetails) (principal : Nat) : Bool :=
  d.slot_history.any fun se =>
    se.2.room_details.any fun re =>
      re.2.bets_made.any fun be => be.1 = principal

/-- `Post::has_this_principal_already_bet_on_this_post`.  The source `unwrap`s
`hot_or_not_details`; absence is a panic, modelled as `none`. -/
def Post.has_this_principal_already_bet_on_this_post (post : Post) (principal : Nat) :
    Option Bool :=
  post.hot_or_not_details.map fun d => scanForPrincipal d principal

/-- `Post::get_hot_or_not_betting_status_for_this_post`.  `none` models the panic that
occurs when the participation scan is reached with absent `hot_or_not_details`. -/
def Post.get_hot_or_not_betting_status_for_this_post (post : Post) (now : Nat)
    (bet_maker_principal_id : Nat) : Option BettingStatus :=
  let elapsed := now - post.created_at
  if elapsed ≤ TOTAL_DURATION_OF_ALL_SLOTS_IN_SECONDS then
    let currently_ongoing_slot := ongoingSlotOf elapsed
    let currently_active_room :=
      currentRoomOf (post.hot_or_not_details.getD default) currently_ongoing_slot
    let flagOpt : Option (Option Bool) :=
      if bet_maker_principal_id = anonymousPrincipal then some none
      else (post.has_this_principal_already_bet_on_this_post bet_maker_principal_id).map some
    flagOpt.map fun flag =>
      .BettingOpen post.created_at (currently_active_room.2.bets_made.length % 256)
        currently_ongoing_slot currently_active_room.1 flag
  else some .BettingClosed

/-- Outcome of a successful or failed bet placement; `success` carries the returned
`BettingStatus` together with the mutated post. -/
inductive PlaceBetOutcome
  | failure (e : BetOnCurrentlyViewingPostError)
  | success (status : BettingStatus) (post : Post)
deriving DecidableEq, Repr

/-- The `bets_made`-update section of `place_hot_or_not_bet`: insert into the ongoing
room while it holds fewer than 100 bets, otherwise open room `ongoing_room + 1` seeded
with the single new bet.  `entry(..).or_default()` is modelled by the `getD default`
read followed by re-insertion of the (possibly updated) value. -/
def updatedRooms (bet_maker_principal_id bet_maker_canister_id : Nat) (bet_amount : Nat)
    (bet_direction : BetDirection) (ongoing_room : Nat)
    (rooms : List (Nat × RoomDetails)) : List (Nat × RoomDetails) :=
  let room0 := (mlookup ongoing_room rooms).getD default
  let newBet : BetDetails :=
    ⟨bet_amount, bet_direction, .NotCalculatedYet, bet_maker_canister_id⟩
  if room0.bets_made.length < 100 then
    minsert ongoing_room
      { room0 with
        bets_made := minsert bet_maker_principal_id newBet room0.bets_made,
        room_bets_total_pot := u64add room0.room_bets_total_pot bet_amount }
      rooms
  else
    minsert (u64add ongoing_room 1)
      { bets_made := minsert bet_maker_principal_id newBet [],
        bet_outcome := .BetOngoing,
        room_bets_total_pot := bet_amount,
        total_hot_bets := 0, total_not_bets := 0 }
      (minsert ongoing_room room0 rooms)

/-- The body of `place_hot_or_not_bet` past its three guards (the mutation section of
the `BettingStatus::BettingOpen` arm), with `ongoing_slot` / `ongoing_room`
destructured from the betting status. -/
def placeBetBody (post : Post) (bet_maker_principal_id bet_maker_canister_id : Nat)
    (bet_amount : Nat) (bet_direction : BetDirection)
    (ongoing_slot ongoing_room : Nat) : Option PlaceBetOutcome :=
  let d := post.hot_or_not_details.getD default
  let slot0 := (mlookup ongoing_slot d.slot_history).getD default
  let roomsA := updatedRooms bet_maker_principal_id bet_maker_canister_id bet_amount
    bet_direction ongoing_room slot0.room_details
  let agg1 :=
    { d.aggregate_stats with
      total_amount_bet := u64add d.aggregate_stats.total_amount_bet bet_amount }
  match mlast roomsA with
  | none => none
  | some (lastRid, lastRoom) =>
    let stepped :=
      match bet_direction with
      | .Hot =>
        ({ agg1 with total_number_of_hot_bets := u64add agg1.total_number_of_hot_bets 1 },
         { lastRoom with total_hot_bets := u64add lastRoom.total_hot_bets 1 })
      | .Not =>
        ({ agg1 with total_number_of_not_bets := u64add agg1.total_number_of_not_bets 1 },
         { lastRoom with total_not_bets := u64add lastRoom.total_not_bets 1 })
    let roomsB := minsert lastRid stepped.2 roomsA
    let d1 : HotOrNotDetails :=
      { d with
        aggregate_stats := stepped.1,
        slot_history := minsert ongoing_slot ⟨roomsB⟩ d.slot_history }
    let post1 : Post := { post with hot_or_not_details := some d1 }
    match mlast d1.slot_history with
    | none => none
    | some (lastSlotId, lastSlot) =>
      match mlast lastSlot.room_details with
      | none => none
      | some (finalRoomId, finalRoom) =>
        some (.success
          (.BettingOpen post.created_at (finalRoom.bets_made.length % 256)
            lastSlotId finalRoomId (some true))
          post1)

/-- `Post::place_hot_or_not_bet`: the three guards in source order, then the mutation
body.  `none` models a panicking execution. -/
def Post.place_hot_or_not_bet (post : Post) (bet_maker_principal_id bet_maker_canister_id : Nat)
    (bet_amount : Nat) (bet_direction : BetDirection) (now : Nat) : Option PlaceBetOutcome :=
  if bet_maker_principal_id = anonymousPrincipal then
    some (.failure .UserNotLoggedIn)
  else
    match post.get_hot_or_not_betting_status_for_this_post now bet_maker_principal_id with
    | none => none
    | some .BettingClosed => some (.failure .BettingClosed)
    | some (.BettingOpen _ _ ongoing_slot ongoing_room flag) =>
      match flag with
      | none => none
      | some true => some (.failure .UserAlreadyParticipatedInThisPost)
      | some false =>
        placeBetBody post bet_maker_principal_id bet_maker_canister_id bet_amount
          bet_direction ongoing_slot ongoing_room

/-- The winner-selection comparison of `tabulate_hot_or_not_outcome_for_slot`
(`total_hot_bets.cmp(&total_not_bets)`). -/
def settleOutcome (rd : RoomDetails) : RoomBetPossibleOutcomes :=
  if rd.total_not_bets < rd.total_hot_bets then .HotWon
  else if rd.total_hot_bets < rd.total_not_bets then .NotWon
  else .Draw

/-- Payout of a winning bet: `amount * HOT_OR_NOT_BET_WINNINGS_MULTIPLIER
* (100 - HOT_OR_NOT_BET_CREATOR_COMMISSION_PERCENTAGE) / 100` in `u64` arithmetic. -/
def winnerPayout (amount : Nat) : Nat :=
  u64mul (u64mul amount HOT_OR_NOT_BET_WINNINGS_MULTIPLIER)
    (100 - HOT_OR_NOT_BET_CREATOR_COMMISSION_PERCENTAGE) / 100

/-- Payout of every bet under a draw:
`amount * (100 - HOT_OR_NOT_BET_CREATOR_COMMISSION_PERCENTAGE) / 100`. -/
def drawPayout (amount : Nat) : Nat :=
  u64mul amount (100 - HOT_OR_NOT_BET_CREATOR_COMMISSION_PERCENTAGE) / 100

/-- The per-bet payout assignment of the participant-reward loop. -/
def settleBet (o : RoomBetPossibleOutcomes) (b : BetDetails) : BetDetails :=
  match o with
  | .HotWon =>
    if b.bet_direction = .Hot then { b with payout := .Calculated (winnerPayout b.amount) }
    else { b with payout := .Calculated 0 }
  | .NotWon =>
    if b.bet_direction = .Not then { b with payout := .Calculated (winnerPayout b.amount) }
    else { b with payout := .Calculated 0 }
  | .Draw => { b with payout := .Calculated (drawPayout b.amount) }
  | .BetOngoing => b

/-- Settlement of one ongoing room: write the decided outcome and assign every
participant's payout. -/
def settleRoom (rd : RoomDetails) : RoomDetails :=
  let o := settleOutcome rd
  { rd with
    bet_outcome := o,
    bets_made := rd.bets_made.map fun e => (e.1, settleBet o e.2) }

/-- The commission event emitted for one settled room. -/
def commissionEvent (post_canister_id post_id slot_id room_id pot now : Nat) : TokenEvent :=
  .HotOrNotOutcomePayout
    (u64mul pot HOT_OR_NOT_BET_CREATOR_COMMISSION_PERCENTAGE / 100)
    (.CommissionFromHotOrNotBet post_canister_id post_id slot_id room_id pot)
    now

/-- The room loop of `tabulate_hot_or_not_outcome_for_slot`: each still-ongoing room is
settled and contributes one commission event; already-decided rooms are left untouched
and emit nothing.  Returns the updated room map and the events in iteration order. -/
def tabulateRooms (post_canister_id post_id slot_id now : Nat) :
    List (Nat × RoomDetails) → List (Nat × RoomDetails) × List TokenEvent
  | [] => ([], [])
  | (rid, rd) :: rest =>
    let tail := tabulateRooms post_canister_id post_id slot_id now rest
    if rd.bet_outcome = .BetOngoing then
      ((rid, settleRoom rd) :: tail.1,
        commissionEvent post_canister_id post_id slot_id rid rd.room_bets_total_pot now
          :: tail.2)
    else ((rid, rd) :: tail.1, tail.2)

/-- `Post::tabulate_hot_or_not_outcome_for_slot`: gracefully returns the unchanged
state when the details or the requested slot are absent; otherwise settles every
ongoing room of the slot and delivers the commission events to the token balance
in iteration order. -/
def Post.tabulate_hot_or_not_outcome_for_slot (post : Post) (post_canister_id slot_id : Nat)
    (token_balance : TokenBalance) (now : Nat) : Post × TokenBalance :=
  match post.hot_or_not_details with
  | none => (post, token_balance)
  | some d =>
    match mlookup slot_id d.slot_history with
    | none => (post, token_balance)
    | some sd =>
      let res := tabulateRooms post_canister_id post.id slot_id now sd.room_details
      ({ post with
         hot_or_not_details :=
           some { d with slot_history := minsert slot_id ⟨res.1⟩ d.slot_history } },
       res.2.foldl TokenBalance.handle_token_event token_balance)

/-- One externally triggered operation on a post's engine state. -/
inductive EngineOp
  | place (principal canister amount : Nat) (dir : BetDirection) (now : Nat)
  | tabulate (canister slot now : Nat)
deriving DecidableEq, Repr

/-- Amount carried by an operation (`0` for tabulation). -/
def EngineOp.amount : EngineOp → Nat
  | .place _ _ a _ _ => a
  | .tabulate _ _ _ => 0

/-- One step of the engine: a failed or panicking (trapping) placement leaves the
state unchanged, a successful one installs the mutated post; tabulation always
applies its (possibly identity) mutation. -/
def stepOp (st : Post × TokenBalance) : EngineOp → Post × TokenBalance
  | .place p c a dir t =>
    match st.1.place_hot_or_not_bet p c a dir t with
    | some (.success _ post1) => (post1, st.2)
    | _ => st
  | .tabulate c s t => st.1.tabulate_hot_or_not_outcome_for_slot c s st.2 t

/-- A freshly created post: `Post::new` eagerly installs a default
`HotOrNotDetails` (pinned by the source test `test_place_hot_or_not_bet`,
which asserts `post.hot_or_not_details.is_some()` right after creation). -/
def freshPost (id created_at : Nat) : Post :=
  ⟨id, created_at, some ⟨0, ⟨0, 0, 0⟩, []⟩⟩

/-- Run a sequence of operations from a post paired with an empty token balance. -/
def runOps (post : Post) (ops : List EngineOp) : Post × TokenBalance :=
  ops.foldl stepOp (post, ⟨[]⟩)

/-- Sum of the `amount` fields of a room's bets. -/
def betAmountsSum (l : List (Nat × BetDetails)) : Nat :=
  (l.map fun e => e.2.amount).sum

/-- The per-room bookkeeping invariant of claim C9. -/
def RoomConsistent (rd : RoomDetails) : Prop :=
  rd.bets_made.length = rd.total_hot_bets + rd.total_not_bets ∧
  rd.bets_made.length ≤ 100 ∧
  rd.room_bets_total_pot = betAmountsSum rd.bets_made

instance (rd : RoomDetails) : Decidable (RoomConsistent rd) := by
  unfold RoomConsistent; infer_instance

/-! ### Ordered-map lemmas -/

theorem minsert_ne_nil {α : Type} (k : Nat) (v : α) (l : List (Nat × α)) :
    minsert k v l ≠ [] := by
  cases l with
  | nil => simp [minsert]
  | cons e t =>
    obtain ⟨k', v'⟩ := e
    by_cases h1 : k < k'
    · simp [minsert, h1]
    · by_cases h2 : k = k' <;> simp [minsert, h1, h2]

theorem mem_minsert {α : Type} {k : Nat} {v : α} {l : List (Nat × α)} {e : Nat × α}
    (h : e ∈ minsert k v l) : e = (k, v) ∨ e ∈ l := by
  induction l with
  | nil => simpa [minsert] using h
  | cons hd t ih =>
    obtain ⟨k', v'⟩ := hd
    by_cases h1 : k < k'
    · simp only [minsert, if_pos h1, List.mem_cons] at h
      rcases h with h | h | h
      · exact Or.inl h
      · right; simp [h]
      · right; simp [h]
    · by_cases h2 : k = k'
      · simp only [minsert, if_neg h1, if_pos h2, List.mem_cons] at h
        rcases h with h | h
        · exact Or.inl h
        · right; simp [h]
      · simp only [minsert, if_neg h1, if_neg h2, List.mem_cons] at h
        rcases h with h | h
        · right; simp [h]
        · rcases ih h with h | h
          · exact Or.inl h
          · right; simp [h]

theorem minsert_sorted {α : Type} {l : List (Nat × α)} (k : Nat) (v : α)
    (h : SortedKeys l) : SortedKeys (minsert k v l) := by
  induction l with
  | nil => simp [minsert, SortedKeys]
  | cons hd t ih =>
    obtain ⟨k', v'⟩ := hd
    rw [SortedKeys, List.pairwise_cons] at h
    obtain ⟨hall, ht⟩ := h
    by_cases h1 : k < k'
    · rw [SortedKeys]
      simp only [minsert, if_pos h1]
      refine List.pairwise_cons.mpr ⟨?_, List.pairwise_cons.mpr ⟨hall, ht⟩⟩
      intro e he
      rcases List.mem_cons.mp he with he | he
      · simp [he, h1]
      · exact lt_trans h1 (hall e he)
    · by_cases h2 : k = k'
      · rw [SortedKeys]
        simp only [minsert, if_neg h1, if_pos h2]
        exact List.pairwise_cons.mpr ⟨fun e he => h2 ▸ hall e he, ht⟩
      · have h3 : k' < k := by omega
        rw [SortedKeys]
        simp only [minsert, if_neg h1, if_neg h2]
        refine List.pairwise_cons.mpr ⟨?_, ih ht⟩
        intro e he
        rcases mem_minsert he with he | he
        · simp [he, h3]
        · exact hall e he

theorem minsert_minsert_same {α : Type} (k : Nat) (v w : α) (l : List (Nat × α)) :
    minsert k v (minsert k w l) = minsert k v l := by
  induction l with
  | nil => simp [minsert]
  | cons hd t ih =>
    obtain ⟨k', v'⟩ := hd
    by_cases h1 : k < k'
    · simp [minsert, h1, lt_irrefl]
    · by_cases h2 : k = k'
      · simp [minsert, h1, h2, lt_irrefl]
      · simp [minsert, h1, h2, ih]

theorem mlookup_minsert_self {α : Type} (k : Nat) (v : α) (l : List (Nat × α)) :
    mlookup k (minsert k v l) = some v := by
  induction l with
  | nil => simp [minsert, mlookup]
  | cons hd t ih =>
    obtain ⟨k', v'⟩ := hd
    by_cases h1 : k < k'
    · simp [minsert, h1, mlookup]
    · by_cases h2 : k = k' <;> simp [minsert, mlookup, h1, h2, ih]

theorem mlookup_some_mem {α : Type} {k : Nat} {v : α} {l : List (Nat × α)}
    (h : mlookup k l = some v) : (k, v) ∈ l := by
  induction l with
  | nil => simp [mlookup] at h
  | cons hd t ih =>
    obtain ⟨k', v'⟩ := hd
    by_cases h2 : k = k'
    · simp only [mlookup, if_pos h2, Option.some.injEq] at h
      simp [h2, h]
    · simp only [mlookup, if_neg h2] at h
      exact List.mem_cons_of_mem _ (ih h)

theorem mlookup_eq_none {α : Type} {k : Nat} {l : List (Nat × α)} :
    mlookup k l = none ↔ k ∉ l.map Prod.fst := by
  induction l with
  | nil => simp [mlookup]
  | cons hd t ih =>
    obtain ⟨k', v'⟩ := hd
    by_cases h2 : k = k' <;> simp [mlookup, h2, ih]

theorem mlookup_of_sorted_mem {α : Type} {k : Nat} {v : α} {l : List (Nat × α)}
    (hs : SortedKeys l) (h : (k, v) ∈ l) : mlookup k l = some v := by
  induction l with
  | nil => simp at h
  | cons hd t ih =>
    obtain ⟨k', v'⟩ := hd
    rw [SortedKeys, List.pairwise_cons] at hs
    obtain ⟨hall, ht⟩ := hs
    rcases List.mem_cons.mp h with h | h
    · obtain ⟨hk, hv⟩ := Prod.mk.injEq .. ▸ h
      simp [mlookup, hk, hv]
    · have hk : k' < k := hall (k, v) h
      have : k ≠ k' := by omega
      simp [mlookup, this, ih ht h]

theorem minsert_self_of_lookup {α : Type} {k : Nat} {v : α} {l : List (Nat × α)}
    (hs : SortedKeys l) (h : mlookup k l = some v) : minsert k v l = l := by
  induction l with
  | nil => simp [mlookup] at h
  | cons hd t ih =>
    obtain ⟨k', v'⟩ := hd
    rw [SortedKeys, List.pairwise_cons] at hs
    obtain ⟨hall, ht⟩ := hs
    by_cases h2 : k = k'
    · simp only [mlookup, if_pos h2, Option.some.injEq] at h
      simp [minsert, h2, lt_irrefl, h]
    · simp only [mlookup, if_neg h2] at h
      have hk : k' < k := by
        have := hall _ (mlookup_some_mem h)
        simpa using this
      have h1 : ¬ k < k' := by omega
      simp [minsert, h1, h2, ih ht h]

theorem mlast_mem {α : Type} {l : List (Nat × α)} {e : Nat × α}
    (h : mlast l = some e) : e ∈ l := by
  induction l with
  | nil => simp [mlast] at h
  | cons hd t ih =>
    cases t with
    | nil =>
      simp only [mlast, Option.some.injEq] at h
      simp [h]
    | cons h2 t2 =>
      rw [mlast] at h
      exact List.mem_cons_of_mem _ (ih h)

theorem mlast_eq_none {α : Type} {l : List (Nat × α)} :
    mlast l = none ↔ l = [] := by
  induction l with
  | nil => simp [mlast]
  | cons hd t ih =>
    cases t with
    | nil => simp [mlast]
    | cons h2 t2 => rw [mlast]; simp [ih]

theorem mlast_cons_ne_nil {α : Type} (hd : Nat × α) {t : List (Nat × α)} (ht : t ≠ []) :
    mlast (hd :: t) = mlast t := by
  cases t with
  | nil => exact absurd rfl ht
  | cons h2 t2 => rw [mlast]

theorem sorted_le_of_mlast {α : Type} {l : List (Nat × α)} {k : Nat} {v : α}
    (hs : SortedKeys l) (h : mlast l = some (k, v)) : ∀ e ∈ l, e.1 ≤ k := by
  induction l with
  | nil => simp
  | cons hd t ih =>
    rw [SortedKeys, List.pairwise_cons] at hs
    obtain ⟨hall, ht⟩ := hs
    cases t with
    | nil =>
      simp only [mlast, Option.some.injEq] at h
      intro e he
      simp only [List.mem_singleton] at he
      subst he
      rw [h]
    | cons h2 t2 =>
      rw [mlast] at h
      intro e he
      rcases List.mem_cons.mp he with he | he
      · have hmem : (k, v) ∈ h2 :: t2 := mlast_mem h
        have := hall (k, v) hmem
        subst he
        omega
      · exact ih ht h e he

theorem mlast_minsert_ge {α : Type} {l : List (Nat × α)} {k : Nat} (v : α)
    (hs : SortedKeys l) (hge : ∀ e ∈ l, e.1 ≤ k) : mlast (minsert k v l) = some (k, v) := by
  induction l with
  | nil => simp [minsert, mlast]
  | cons hd t ih =>
    obtain ⟨k', v'⟩ := hd
    rw [SortedKeys, List.pairwise_cons] at hs
    obtain ⟨hall, ht⟩ := hs
    have hk' : k' ≤ k := hge (k', v') (by simp)
    by_cases h1 : k < k'
    · omega
    · by_cases h2 : k = k'
      · have ht2 : t = [] := by
          cases t with
          | nil => rfl
          | cons e t2 =>
            have h3 := hall e (by simp)
            have h4 := hge e (by simp)
            omega
        simp [minsert, h1, h2, ht2, mlast]
      · simp only [minsert, if_neg h1, if_neg h2]
        rw [mlast_cons_ne_nil _ (minsert_ne_nil k v t)]
        exact ih ht fun e he => hge e (List.mem_cons_of_mem _ he)

theorem minsert_perm_of_fresh {α : Type} {k : Nat} {l : List (Nat × α)} (v : α)
    (h : k ∉ l.map Prod.fst) : (minsert k v l).Perm ((k, v) :: l) := by
  induction l with
  | nil => simp [minsert]
  | cons hd t ih =>
    obtain ⟨k', v'⟩ := hd
    simp only [List.map_cons, List.mem_cons] at h
    push_neg at h
    obtain ⟨hk', hkt⟩ := h
    by_cases h1 : k < k'
    · simp [minsert, h1]
    · simp only [minsert, if_neg h1, if_neg hk']
      exact ((ih hkt).cons (k', v')).trans (List.Perm.swap _ _ _)

theorem length_minsert_fresh {α : Type} {k : Nat} {l : List (Nat × α)} (v : α)
    (h : k ∉ l.map Prod.fst) : (minsert k v l).length = l.length + 1 := by
  simpa using (minsert_perm_of_fresh v h).length_eq

theorem betAmountsSum_minsert_fresh {k : Nat} {l : List (Nat × BetDetails)} (v : BetDetails)
    (h : k ∉ l.map Prod.fst) :
    betAmountsSum (minsert k v l) = v.amount + betAmountsSum l := by
  unfold betAmountsSum
  rw [((minsert_perm_of_fresh v h).map fun e => e.2.amount).sum_eq]
  simp

/-! ### Settlement lemmas -/

theorem settleBet_amount (o : RoomBetPossibleOutcomes) (b : BetDetails) :
    (settleBet o b).amount = b.amount := by
  cases o <;> simp only [settleBet] <;> split <;> rfl

theorem settleBet_direction (o : RoomBetPossibleOutcomes) (b : BetDetails) :
    (settleBet o b).bet_direction = b.bet_direction := by
  cases o <;> simp only [settleBet] <;> split <;> rfl

theorem settleRoom_fields (rd : RoomDetails) :
    (settleRoom rd).room_bets_total_pot = rd.room_bets_total_pot ∧
    (settleRoom rd).total_hot_bets = rd.total_hot_bets ∧
    (settleRoom rd).total_not_bets = rd.total_not_bets :=
  ⟨rfl, rfl, rfl⟩

theorem settleRoom_bets_length (rd : RoomDetails) :
    (settleRoom rd).bets_made.length = rd.bets_made.length := by
  simp [settleRoom]

theorem settleRoom_keys (rd : RoomDetails) :
    (settleRoom rd).bets_made.map Prod.fst = rd.bets_made.map Prod.fst := by
  simp [settleRoom]

theorem betAmountsSum_settleRoom (rd : RoomDetails) :
    betAmountsSum (settleRoom rd).bets_made = betAmountsSum rd.bets_made := by
  unfold betAmountsSum settleRoom
  simp only [List.map_map]
  congr 1
  exact List.map_congr_left fun e _ => settleBet_amount (settleOutcome rd) e.2

theorem mem_settleRoom_bets {rd : RoomDetails} {e : Nat × BetDetails}
    (h : e ∈ (settleRoom rd).bets_made) :
    ∃ b₀, (e.1, b₀) ∈ rd.bets_made ∧ e.2 = settleBet (settleOutcome rd) b₀ := by
  simp only [settleRoom, List.mem_map] at h
  obtain ⟨⟨u, b₀⟩, hmem, heq⟩ := h
  exact ⟨b₀, by simpa [← heq] using hmem, by simp [← heq]⟩

theorem tabulateRooms_mem {a b c d : Nat} {l : List (Nat × RoomDetails)}
    {e : Nat × RoomDetails} (h : e ∈ (tabulateRooms a b c d l).1) :
    ∃ e₀ ∈ l, e.1 = e₀.1 ∧
      (e.2 = e₀.2 ∨ (e₀.2.bet_outcome = .BetOngoing ∧ e.2 = settleRoom e₀.2)) := by
  induction l with
  | nil => simp [tabulateRooms] at h
  | cons hd t ih =>
    obtain ⟨rid, rd⟩ := hd
    by_cases ho : rd.bet_outcome = .BetOngoing
    · simp only [tabulateRooms, if_pos ho, List.mem_cons] at h
      rcases h with h | h
      · exact ⟨(rid, rd), by simp, by simp [h], Or.inr ⟨ho, by simp [h]⟩⟩
      · obtain ⟨e₀, he₀, hfst, hsnd⟩ := ih h
        exact ⟨e₀, List.mem_cons_of_mem _ he₀, hfst, hsnd⟩
    · simp only [tabulateRooms, if_neg ho, List.mem_cons] at h
      rcases h with h | h
      · exact ⟨(rid, rd), by simp, by simp [h], Or.inl (by simp [h])⟩
      · obtain ⟨e₀, he₀, hfst, hsnd⟩ := ih h
        exact ⟨e₀, List.mem_cons_of_mem _ he₀, hfst, hsnd⟩

theorem tabulateRooms_mem_settle {a b c d : Nat} {l : List (Nat × RoomDetails)}
    {rid : Nat} {rd : RoomDetails} (hmem : (rid, rd) ∈ l)
    (ho : rd.bet_outcome = .BetOngoing) :
    (rid, settleRoom rd) ∈ (tabulateRooms a b c d l).1 := by
  induction l with
  | nil => simp at hmem
  | cons hd t ih =>
    obtain ⟨rid', rd'⟩ := hd
    rcases List.mem_cons.mp hmem with h | h
    · obtain ⟨hk, hv⟩ := Prod.mk.injEq .. ▸ h
      subst hk; subst hv
      simp [tabulateRooms, ho]
    · by_cases ho' : rd'.bet_outcome = .BetOngoing
      · simp only [tabulateRooms, if_pos ho']
        exact List.mem_cons_of_mem _ (ih h)
      · simp only [tabulateRooms, if_neg ho']
        exact List.mem_cons_of_mem _ (ih h)

theorem tabulateRooms_snd {a b c d : Nat} (l : List (Nat × RoomDetails)) :
    (tabulateRooms a b c d l).2 =
      l.filterMap fun e =>
        if e.2.bet_outcome = .BetOngoing then
          some (commissionEvent a b c e.1 e.2.room_bets_total_pot d)
        else none := by
  induction l with
  | nil => simp [tabulateRooms]
  | cons hd t ih =>
    obtain ⟨rid, rd⟩ := hd
    by_cases ho : rd.bet_outcome = .BetOngoing
    · simp [tabulateRooms, ho, ih, List.filterMap_cons]
    · simp [tabulateRooms, ho, ih, List.filterMap_cons]

theorem tabulateRooms_keys {a b c d : Nat} (l : List (Nat × RoomDetails)) :
    ((tabulateRooms a b c d l).1).map Prod.fst = l.map Prod.fst := by
  induction l with
  | nil => simp [tabulateRooms]
  | cons hd t ih =>
    obtain ⟨rid, rd⟩ := hd
    by_cases ho : rd.bet_outcome = .BetOngoing
    · simp [tabulateRooms, ho, ih]
    · simp [tabulateRooms, ho, ih]

theorem foldl_handle_events (evs : List TokenEvent) (tb : TokenBalance) :
    (evs.foldl TokenBalance.handle_token_event tb).events = tb.events ++ evs := by
  induction evs generalizing tb with
  | nil => simp
  | cons e t ih =>
    simp [List.foldl_cons, ih, TokenBalance.handle_token_event]

/-- The room id carried inside a commission event. -/
def eventRoomId : TokenEvent → Nat
  | .HotOrNotOutcomePayout _ (.CommissionFromHotOrNotBet _ _ _ r _) _ => r

theorem events_pairwise_of_sorted {a b c d : Nat} {l : List (Nat × RoomDetails)}
    (hs : SortedKeys l) :
    List.Pairwise (· < ·) (((tabulateRooms a b c d l).2).map eventRoomId) := by
  induction l with
  | nil => simp [tabulateRooms]
  | cons hd t ih =>
    obtain ⟨rid, rd⟩ := hd
    rw [SortedKeys, List.pairwise_cons] at hs
    obtain ⟨hall, ht⟩ := hs
    by_cases ho : rd.bet_outcome = .BetOngoing
    · simp only [tabulateRooms, if_pos ho, List.map_cons]
      refine List.pairwise_cons.mpr ⟨?_, ih ht⟩
      intro y hy
      simp only [List.mem_map] at hy
      obtain ⟨ev, hev, hy⟩ := hy
      rw [tabulateRooms_snd, List.mem_filterMap] at hev
      obtain ⟨e, he, hfe⟩ := hev
      by_cases ho' : e.2.bet_outcome = .BetOngoing
      · rw [if_pos ho'] at hfe
        have : eventRoomId ev = e.1 := by
          rw [← Option.some.injEq] at hfe
          simp only [Option.some.injEq] at hfe
          rw [← hfe]
          rfl
        have hlt := hall e he
        simp only [commissionEvent, eventRoomId] at *
        omega
      · rw [if_neg ho'] at hfe
        exact absurd hfe (by simp)
    · simp only [tabulateRooms, if_neg ho]
      exact ih ht

theorem settleRoom_outcome (rd : RoomDetails) :
    (settleRoom rd).bet_outcome = settleOutcome rd := rfl

/-! ### Betting-status reduction lemmas -/

theorem get_status_closed (post : Post) (now viewer : Nat)
    (h : TOTAL_DURATION_OF_ALL_SLOTS_IN_SECONDS < now - post.created_at) :
    post.get_hot_or_not_betting_status_for_this_post now viewer = some .BettingClosed := by
  unfold Post.get_hot_or_not_betting_status_for_this_post
  rw [if_neg (by omega)]

theorem get_status_open_anon (post : Post) (now : Nat)
    (h : now - post.created_at ≤ TOTAL_DURATION_OF_ALL_SLOTS_IN_SECONDS) :
    post.get_hot_or_not_betting_status_for_this_post now anonymousPrincipal =
      some (.BettingOpen post.created_at
        ((currentRoomOf (post.hot_or_not_details.getD default)
            (ongoingSlotOf (now - post.created_at))).2.bets_made.length % 256)
        (ongoingSlotOf (now - post.created_at))
        (currentRoomOf (post.hot_or_not_details.getD default)
            (ongoingSlotOf (now - post.created_at))).1
        none) := by
  unfold Post.get_hot_or_not_betting_status_for_this_post
  rw [if_pos h]
  simp

theorem get_status_open_named (post : Post) (now viewer : Nat) (d : HotOrNotDetails)
    (hd : post.hot_or_not_details = some d) (hv : viewer ≠ anonymousPrincipal)
    (h : now - post.created_at ≤ TOTAL_DURATION_OF_ALL_SLOTS_IN_SECONDS) :
    post.get_hot_or_not_betting_status_for_this_post now viewer =
      some (.BettingOpen post.created_at
        ((currentRoomOf d (ongoingSlotOf (now - post.created_at))).2.bets_made.length % 256)
        (ongoingSlotOf (now - post.created_at))
        (currentRoomOf d (ongoingSlotOf (now - post.created_at))).1
        (some (scanForPrincipal d viewer))) := by
  unfold Post.get_hot_or_not_betting_status_for_this_post
  rw [if_pos h]
  simp [hd, hv, Post.has_this_principal_already_bet_on_this_post]

theorem get_status_open_missing (post : Post) (now viewer : Nat)
    (hd : post.hot_or_not_details = none) (hv : viewer ≠ anonymousPrincipal)
    (h : now - post.created_at ≤ TOTAL_DURATION_OF_ALL_SLOTS_IN_SECONDS) :
    post.get_hot_or_not_betting_status_for_this_post now viewer = none := by
  unfold Post.get_hot_or_not_betting_status_for_this_post
  rw [if_pos h]
  simp [hd, hv, Post.has_this_principal_already_bet_on_this_post]

/-! ### Claims about the tabulation engine -/

/-- Claim C10: `tabulate_hot_or_not_outcome_for_slot` never errors — when the post's
`hot_or_not_details` is absent, or its `slot_history` has no entry for the requested
slot id, the call returns without mutating the post state and without emitting any
token event. -/
theorem claim_C10_tabulate_graceful (post : Post) (post_canister_id slot_id : Nat)
    (tb : TokenBalance) (now : Nat)
    (h : post.hot_or_not_details = none ∨
      ∀ d, post.hot_or_not_details = some d → mlookup slot_id d.slot_history = none) :
    post.tabulate_hot_or_not_outcome_for_slot post_canister_id slot_id tb now = (post, tb) := by
  rcases h with h | h
  · simp only [Post.tabulate_hot_or_not_outcome_for_slot, h]
  · cases hd : post.hot_or_not_details with
    | none => simp only [Post.tabulate_hot_or_not_outcome_for_slot, hd]
    | some d => simp only [Post.tabulate_hot_or_not_outcome_for_slot, hd, h d hd]

theorem claim_C10_tabulate_graceful_witness :
    (Post.mk 3 0 none).tabulate_hot_or_not_outcome_for_slot 1 1 ⟨[]⟩ 5 =
      (Post.mk 3 0 none, ⟨[]⟩) :=
  claim_C10_tabulate_graceful _ _ _ _ _ (Or.inl rfl)

/-- Claim C5: for every room processed by `tabulate_hot_or_not_outcome_for_slot` whose
`bet_outcome` is `BetOngoing`, the decided outcome is determined solely by comparing
`total_hot_bets` against `total_not_bets`: strictly greater gives `HotWon`, strictly
less gives `NotWon`, and equality gives `Draw`. -/
theorem claim_C5_outcome_by_comparison (post : Post) (post_canister_id slot_id : Nat)
    (tb : TokenBalance) (now : Nat) (d : HotOrNotDetails) (sd : SlotDetails)
    (rid : Nat) (rd : RoomDetails)
    (hd : post.hot_or_not_details = some d)
    (hs : mlookup slot_id d.slot_history = some sd)
    (hmem : (rid, rd) ∈ sd.room_details)
    (ho : rd.bet_outcome = .BetOngoing) :
    ∃ d1, ((post.tabulate_hot_or_not_outcome_for_slot post_canister_id slot_id tb now).1).hot_or_not_details
        = some d1 ∧
      ∃ rooms1, mlookup slot_id d1.slot_history = some ⟨rooms1⟩ ∧
        (rid, settleRoom rd) ∈ rooms1 ∧
        (rd.total_not_bets < rd.total_hot_bets → (settleRoom rd).bet_outcome = .HotWon) ∧
        (rd.total_hot_bets < rd.total_not_bets → (settleRoom rd).bet_outcome = .NotWon) ∧
        (rd.total_hot_bets = rd.total_not_bets → (settleRoom rd).bet_outcome = .Draw) := by
  simp only [Post.tabulate_hot_or_not_outcome_for_slot, hd, hs]
  refine ⟨_, rfl, (tabulateRooms post_canister_id post.id slot_id now sd.room_details).1,
    mlookup_minsert_self _ _ _, tabulateRooms_mem_settle hmem ho, ?_, ?_, ?_⟩ <;>
    intro hcmp <;>
    simp [settleRoom_outcome, settleOutcome, hcmp] <;> omega

/-- Concrete three-bet room used by the claim C5 witness. -/
def roomC5 : RoomDetails :=
  ⟨[(5, ⟨10, .Hot, .NotCalculatedYet, 5⟩), (6, ⟨10, .Hot, .NotCalculatedYet, 6⟩),
    (7, ⟨10, .Not, .NotCalculatedYet, 7⟩)], .BetOngoing, 30, 2, 1⟩

/-- Concrete post used by the claim C5 witness. -/
def postC5 : Post := ⟨0, 0, some ⟨0, ⟨2, 1, 30⟩, [(2, ⟨[(1, roomC5)]⟩)]⟩⟩

theorem claim_C5_outcome_by_comparison_witness :
    ∃ d1, ((postC5.tabulate_hot_or_not_outcome_for_slot 4 2 ⟨[]⟩ 9000).1).hot_or_not_details
        = some d1 ∧
      ∃ rooms1, mlookup 2 d1.slot_history = some ⟨rooms1⟩ ∧
        (1, settleRoom roomC5) ∈ rooms1 ∧
        (roomC5.total_not_bets < roomC5.total_hot_bets →
          (settleRoom roomC5).bet_outcome = .HotWon) ∧
        (roomC5.total_hot_bets < roomC5.total_not_bets →
          (settleRoom roomC5).bet_outcome = .NotWon) ∧
        (roomC5.total_hot_bets = roomC5.total_not_bets →
          (settleRoom roomC5).bet_outcome = .Draw) :=
  claim_C5_outcome_by_comparison postC5 4 2 ⟨[]⟩ 9000 _ _ 1 roomC5 rfl rfl (by decide) rfl

/-- Claim C1: for every room tabulated by `tabulate_hot_or_not_outcome_for_slot` whose
outcome is decided as `HotWon` or `NotWon`, every bet whose direction matches the
winning side gets `payout = Calculated(amount * 2 * (100 - 10) / 100)` and every other
bet gets `payout = Calculated(0)`; under `Draw` every bet gets
`payout = Calculated(amount * (100 - 10) / 100)`; all arithmetic is truncating `u64`
integer arithmetic with the multiplications performed before the single division. -/
theorem claim_C1_payout_formula (post_canister_id post_id slot_id now : Nat)
    (rooms : List (Nat × RoomDetails)) (rid : Nat) (rd : RoomDetails)
    (u : Nat) (b : BetDetails)
    (hmem : (rid, rd) ∈ rooms) (ho : rd.bet_outcome = .BetOngoing)
    (hb : (u, b) ∈ (settleRoom rd).bets_made) :
    (rid, settleRoom rd) ∈ (tabulateRooms post_canister_id post_id slot_id now rooms).1 ∧
    (((settleRoom rd).bet_outcome = .HotWon ∧ b.bet_direction = .Hot) ∨
        ((settleRoom rd).bet_outcome = .NotWon ∧ b.bet_direction = .Not) →
      b.payout = .Calculated (u64mul (u64mul b.amount 2) (100 - 10) / 100)) ∧
    (((settleRoom rd).bet_outcome = .HotWon ∧ ¬ b.bet_direction = .Hot) ∨
        ((settleRoom rd).bet_outcome = .NotWon ∧ ¬ b.bet_direction = .Not) →
      b.payout = .Calculated 0) ∧
    ((settleRoom rd).bet_outcome = .Draw →
      b.payout = .Calculated (u64mul b.amount (100 - 10) / 100)) := by
  obtain ⟨b₀, hmem₀, hbe⟩ := mem_settleRoom_bets hb
  have hb2 : b = settleBet (settleOutcome rd) b₀ := hbe
  refine ⟨tabulateRooms_mem_settle hmem ho, ?_, ?_, ?_⟩
  · rintro (⟨hout, hdir⟩ | ⟨hout, hdir⟩) <;>
      rw [settleRoom_outcome] at hout <;>
      rw [hb2, settleBet_direction] at hdir <;>
      rw [hb2, hout] <;>
      simp [settleBet, hdir, winnerPayout, HOT_OR_NOT_BET_WINNINGS_MULTIPLIER,
        HOT_OR_NOT_BET_CREATOR_COMMISSION_PERCENTAGE]
  · rintro (⟨hout, hdir⟩ | ⟨hout, hdir⟩) <;>
      rw [settleRoom_outcome] at hout <;>
      rw [hb2, settleBet_direction] at hdir <;>
      rw [hb2, hout] <;>
      simp [settleBet, hdir]
  · intro hout
    rw [settleRoom_outcome] at hout
    rw [hb2, hout]
    simp [settleBet, drawPayout, HOT_OR_NOT_BET_CREATOR_COMMISSION_PERCENTAGE]

/-- Concrete three-bet room used by the claim C1 witness: one Hot bet against two Not
bets, so tabulation decides `NotWon`. -/
def roomC1 : RoomDetails :=
  ⟨[(1, ⟨100, .Not, .NotCalculatedYet, 1⟩), (2, ⟨50, .Hot, .NotCalculatedYet, 2⟩),
    (3, ⟨10, .Not, .NotCalculatedYet, 3⟩)], .BetOngoing, 160, 1, 2⟩

/-- The settled form of principal 1's winning Not bet of 100 in `roomC1`:
`100 * 2 * 90 / 100 = 180`. -/
def betC1 : BetDetails := ⟨100, .Not, .Calculated 180, 1⟩

theorem claim_C1_payout_formula_witness :
    (1, settleRoom roomC1) ∈ (tabulateRooms 4 0 1 77 [(1, roomC1)]).1 ∧
    (((settleRoom roomC1).bet_outcome = .HotWon ∧ betC1.bet_direction = .Hot) ∨
        ((settleRoom roomC1).bet_outcome = .NotWon ∧ betC1.bet_direction = .Not) →
      betC1.payout = .Calculated (u64mul (u64mul betC1.amount 2) (100 - 10) / 100)) ∧
    (((settleRoom roomC1).bet_outcome = .HotWon ∧ ¬ betC1.bet_direction = .Hot) ∨
        ((settleRoom roomC1).bet_outcome = .NotWon ∧ ¬ betC1.bet_direction = .Not) →
      betC1.payout = .Calculated 0) ∧
    ((settleRoom roomC1).bet_outcome = .Draw →
      betC1.payout = .Calculated (u64mul betC1.amount (100 - 10) / 100)) :=
  claim_C1_payout_formula 4 0 1 77 [(1, roomC1)] 1 roomC1 1 betC1
    (by decide) (by decide) (by decide)

/-- Claim C6: in one call to `tabulate_hot_or_not_outcome_for_slot`, exactly one
`HotOrNotOutcomePayout` event is emitted per room of the slot whose `bet_outcome` was
`BetOngoing` (already-decided rooms emit nothing), with
`amount = room_bets_total_pot * 10 / 100` and details carrying the post canister id,
post id, slot id, room id and room pot; emission is unconditional on whether any
participant won, and events are delivered in ascending `room_id` order. -/
theorem claim_C6_commission_events (post : Post) (post_canister_id slot_id : Nat)
    (tb : TokenBalance) (now : Nat) (d : HotOrNotDetails) (sd : SlotDetails)
    (hd : post.hot_or_not_details = some d)
    (hs : mlookup slot_id d.slot_history = some sd) :
    ((post.tabulate_hot_or_not_outcome_for_slot post_canister_id slot_id tb now).2).events =
      tb.events ++ (sd.room_details.filterMap fun e =>
        if e.2.bet_outcome = .BetOngoing then
          some (.HotOrNotOutcomePayout (u64mul e.2.room_bets_total_pot 10 / 100)
            (.CommissionFromHotOrNotBet post_canister_id post.id slot_id e.1
              e.2.room_bets_total_pot) now)
        else none) ∧
    (SortedKeys sd.room_details →
      List.Pairwise (· < ·) (((sd.room_details.filterMap fun e =>
        if e.2.bet_outcome = .BetOngoing then
          some (.HotOrNotOutcomePayout (u64mul e.2.room_bets_total_pot 10 / 100)
            (.CommissionFromHotOrNotBet post_canister_id post.id slot_id e.1
              e.2.room_bets_total_pot) now)
        else none : List TokenEvent)).map eventRoomId)) := by
  constructor
  · simp only [Post.tabulate_hot_or_not_outcome_for_slot, hd, hs]
    rw [foldl_handle_events, tabulateRooms_snd]
    rfl
  · intro hsorted
    have h := events_pairwise_of_sorted (a := post_canister_id) (b := post.id)
      (c := slot_id) (d := now) hsorted
    rw [tabulateRooms_snd] at h
    exact h

/-- Concrete post used by the claim C6 witness: slot 1 holds an already-decided room 1
and two still-ongoing rooms 2 and 3. -/
def postC6 : Post :=
  ⟨9, 0, some ⟨0, ⟨1, 1, 260⟩,
    [(1, ⟨[(1, ⟨[(4, ⟨10, .Hot, .Calculated 18, 4⟩)], .HotWon, 10, 1, 0⟩),
           (2, ⟨[(5, ⟨100, .Not, .NotCalculatedYet, 5⟩)], .BetOngoing, 100, 0, 1⟩),
           (3, ⟨[(6, ⟨150, .Hot, .NotCalculatedYet, 6⟩)], .BetOngoing, 150, 1, 0⟩)]⟩)]⟩⟩

/-! ### Bet-placement reduction lemmas -/

theorem total_window_eq : TOTAL_DURATION_OF_ALL_SLOTS_IN_SECONDS = 172800 := by
  norm_num [TOTAL_DURATION_OF_ALL_SLOTS_IN_SECONDS, MAXIMUM_NUMBER_OF_SLOTS,
    DURATION_OF_EACH_SLOT_IN_SECONDS]

theorem slot_seconds_eq : DURATION_OF_EACH_SLOT_IN_SECONDS = 3600 := by
  norm_num [DURATION_OF_EACH_SLOT_IN_SECONDS]

theorem ongoingSlotOf_eq {elapsed : Nat} (h : elapsed ≤ 172800) :
    ongoingSlotOf elapsed = elapsed / 3600 + 1 := by
  unfold ongoingSlotOf
  rw [slot_seconds_eq]
  have h1 : elapsed / 3600 ≤ 48 := by omega
  exact Nat.mod_eq_of_lt (by omega)

theorem updatedRooms_ne_nil (p c a : Nat) (dir : BetDirection) (r : Nat)
    (rooms : List (Nat × RoomDetails)) : updatedRooms p c a dir r rooms ≠ [] := by
  simp only [updatedRooms]
  split
  · exact minsert_ne_nil _ _ _
  · exact minsert_ne_nil _ _ _

theorem u64add_eq {a b : Nat} (h : a + b < U64MOD) : u64add a b = a + b :=
  Nat.mod_eq_of_lt h

theorem place_anon_eq (post : Post) (p c amount : Nat) (dir : BetDirection) (now : Nat)
    (hp : p = anonymousPrincipal) :
    post.place_hot_or_not_bet p c amount dir now = some (.failure .UserNotLoggedIn) := by
  unfold Post.place_hot_or_not_bet
  rw [if_pos hp]

theorem place_closed_eq (post : Post) (p c amount : Nat) (dir : BetDirection) (now : Nat)
    (hp : p ≠ anonymousPrincipal)
    (hclosed : TOTAL_DURATION_OF_ALL_SLOTS_IN_SECONDS < now - post.created_at) :
    post.place_hot_or_not_bet p c amount dir now = some (.failure .BettingClosed) := by
  unfold Post.place_hot_or_not_bet
  rw [if_neg hp, get_status_closed post now p hclosed]

theorem place_missing_eq (post : Post) (p c amount : Nat) (dir : BetDirection) (now : Nat)
    (hp : p ≠ anonymousPrincipal)
    (hopen : now - post.created_at ≤ TOTAL_DURATION_OF_ALL_SLOTS_IN_SECONDS)
    (hd : post.hot_or_not_details = none) :
    post.place_hot_or_not_bet p c amount dir now = none := by
  unfold Post.place_hot_or_not_bet
  rw [if_neg hp, get_status_open_missing post now p hd hp hopen]

theorem place_already_eq (post : Post) (p c amount : Nat) (dir : BetDirection) (now : Nat)
    (d : HotOrNotDetails) (hd : post.hot_or_not_details = some d)
    (hp : p ≠ anonymousPrincipal)
    (hopen : now - post.created_at ≤ TOTAL_DURATION_OF_ALL_SLOTS_IN_SECONDS)
    (hscan : scanForPrincipal d p = true) :
    post.place_hot_or_not_bet p c amount dir now =
      some (.failure .UserAlreadyParticipatedInThisPost) := by
  unfold Post.place_hot_or_not_bet
  rw [if_neg hp, get_status_open_named post now p d hd hp hopen, hscan]

theorem place_to_body (post : Post) (p c amount : Nat) (dir : BetDirection) (now : Nat)
    (d : HotOrNotDetails) (hd : post.hot_or_not_details = some d)
    (hp : p ≠ anonymousPrincipal)
    (hopen : now - post.created_at ≤ TOTAL_DURATION_OF_ALL_SLOTS_IN_SECONDS)
    (hscan : scanForPrincipal d p = false) :
    post.place_hot_or_not_bet p c amount dir now =
      placeBetBody post p c amount dir (ongoingSlotOf (now - post.created_at))
        (currentRoomOf d (ongoingSlotOf (now - post.created_at))).1 := by
  unfold Post.place_hot_or_not_bet
  rw [if_neg hp, get_status_open_named post now p d hd hp hopen, hscan]

theorem placeBetBody_succeeds (post : Post) (p c amount : Nat) (dir : BetDirection)
    (s r : Nat) (d : HotOrNotDetails) (hd : post.hot_or_not_details = some d)
    (hne : ∀ e ∈ d.slot_history, e.2.room_details ≠ []) :
    ∃ status post1, placeBetBody post p c amount dir s r = some (.success status post1) := by
  simp only [placeBetBody, hd, Option.getD_some]
  split
  case _ heq => exact absurd (mlast_eq_none.mp heq) (updatedRooms_ne_nil _ _ _ _ _ _)
  case _ lastRid lastRoom heq =>
    split
    case _ heq2 => exact absurd (mlast_eq_none.mp heq2) (minsert_ne_nil _ _ _)
    case _ lastSlotId lastSlot heq2 =>
      split
      case _ heq3 =>
        have hmem := mlast_mem heq2
        have h3 := mlast_eq_none.mp heq3
        rcases mem_minsert hmem with h | h
        · rw [congrArg (fun e => (e.2 : SlotDetails).room_details) h] at h3
          exact (minsert_ne_nil _ _ _ h3).elim
        · exact (hne _ h h3).elim
      case _ => exact ⟨_, _, rfl⟩

/-- Abbreviation for the bet record inserted by `place_hot_or_not_bet`. -/
def newBetOf (c amount : Nat) (dir : BetDirection) : BetDetails :=
  ⟨amount, dir, .NotCalculatedYet, c⟩

/-- The aggregate stats after one placed bet (amount added, direction counter bumped). -/
def aggAfter (agg : AggregateStats) (amount : Nat) : BetDirection → AggregateStats
  | .Hot =>
    { agg with
      total_amount_bet := u64add agg.total_amount_bet amount,
      total_number_of_hot_bets := u64add agg.total_number_of_hot_bets 1 }
  | .Not =>
    { agg with
      total_amount_bet := u64add agg.total_amount_bet amount,
      total_number_of_not_bets := u64add agg.total_number_of_not_bets 1 }

/-- A room with its per-direction bet counter bumped. -/
def bumpRoom (rd : RoomDetails) : BetDirection → RoomDetails
  | .Hot => { rd with total_hot_bets := u64add rd.total_hot_bets 1 }
  | .Not => { rd with total_not_bets := u64add rd.total_not_bets 1 }

/-- The tail of `placeBetBody`: install the updated slot and re-derive the returned
`BettingStatus` from the last slot's last room. -/
def placeResult (post : Post) (d : HotOrNotDetails) (agg : AggregateStats) (s : Nat)
    (roomsB : List (Nat × RoomDetails)) : Option PlaceBetOutcome :=
  let d1 : HotOrNotDetails :=
    { d with aggregate_stats := agg, slot_history := minsert s ⟨roomsB⟩ d.slot_history }
  let post1 : Post := { post with hot_or_not_details := some d1 }
  match mlast d1.slot_history with
  | none => none
  | some (lastSlotId, lastSlot) =>
    match mlast lastSlot.room_details with
    | none => none
    | some (finalRoomId, finalRoom) =>
      some (.success
        (.BettingOpen post.created_at (finalRoom.bets_made.length % 256)
          lastSlotId finalRoomId (some true))
        post1)

theorem bumpRoom_bets (rd : RoomDetails) (dir : BetDirection) :
    (bumpRoom rd dir).bets_made = rd.bets_made := by
  cases dir <;> rfl

theorem bumpRoom_pot (rd : RoomDetails) (dir : BetDirection) :
    (bumpRoom rd dir).room_bets_total_pot = rd.room_bets_total_pot := by
  cases dir <;> rfl

theorem bumpRoom_counts (rd : RoomDetails) (dir : BetDirection) :
    u64add (rd.total_hot_bets + rd.total_not_bets) 1 =
      u64add (bumpRoom rd dir).total_hot_bets (bumpRoom rd dir).total_not_bets →
    True := fun _ => trivial

theorem placeResult_success_shape {post : Post} {d : HotOrNotDetails}
    {agg : AggregateStats} {s : Nat} {roomsB : List (Nat × RoomDetails)}
    {status : BettingStatus} {post1 : Post}
    (h : placeResult post d agg s roomsB = some (.success status post1)) :
    post1 = { post with
      hot_or_not_details := some { d with
        aggregate_stats := agg,
        slot_history := minsert s ⟨roomsB⟩ d.slot_history } } := by
  simp only [placeResult] at h
  split at h
  · exact Option.noConfusion h
  · split at h
    · exact Option.noConfusion h
    · simp only [Option.some.injEq] at h
      cases h.symm
      rfl

/-- Reading back the ongoing room through `mlookup` agrees with the `last_key_value`
pair delivered by the status query (under the `BTreeMap` sortedness invariant). -/
theorem currentRoom_lookup {rooms : List (Nat × RoomDetails)} (hs : SortedKeys rooms) :
    (mlookup ((mlast rooms).getD (1, default)).1 rooms).getD default =
      ((mlast rooms).getD (1, default)).2 := by
  cases hml : mlast rooms with
  | none =>
    rw [mlast_eq_none.mp hml]
    rfl
  | some e =>
    obtain ⟨k, v⟩ := e
    simp only [Option.getD_some]
    rw [mlookup_of_sorted_mem hs (mlast_mem hml)]
    rfl

theorem mlast_keys_le {rooms : List (Nat × RoomDetails)} (hs : SortedKeys rooms) :
    ∀ e ∈ rooms, e.1 ≤ ((mlast rooms).getD (1, default)).1 := by
  cases hml : mlast rooms with
  | none =>
    rw [mlast_eq_none.mp hml]
    simp
  | some e =>
    obtain ⟨k, v⟩ := e
    simp only [Option.getD_some]
    exact sorted_le_of_mlast hs hml

/-- `placeBetBody` in the non-spill case: the ongoing room holds fewer than 100 bets,
the new bet is inserted into it and its pot grows by the bet amount. -/
theorem placeBetBody_eq_small (post : Post) (p c amount : Nat) (dir : BetDirection)
    (s : Nat) (d : HotOrNotDetails) (hd : post.hot_or_not_details = some d)
    (hsorted : SortedKeys ((mlookup s d.slot_history).getD default).room_details)
    (hlen : ((mlast ((mlookup s d.slot_history).getD default).room_details).getD
      (1, default)).2.bets_made.length < 100) :
    placeBetBody post p c amount dir s
        ((mlast ((mlookup s d.slot_history).getD default).room_details).getD (1, default)).1 =
      placeResult post d (aggAfter d.aggregate_stats amount dir) s
        (minsert
          ((mlast ((mlookup s d.slot_history).getD default).room_details).getD (1, default)).1
          (bumpRoom
            { ((mlast ((mlookup s d.slot_history).getD default).room_details).getD
                (1, default)).2 with
              bets_made := minsert p (newBetOf c amount dir)
                ((mlast ((mlookup s d.slot_history).getD default).room_details).getD
                  (1, default)).2.bets_made,
              room_bets_total_pot := u64add
                ((mlast ((mlookup s d.slot_history).getD default).room_details).getD
                  (1, default)).2.room_bets_total_pot amount }
            dir)
          ((mlookup s d.slot_history).getD default).room_details) := by
  have hup : updatedRooms p c amount dir
      ((mlast ((mlookup s d.slot_history).getD default).room_details).getD (1, default)).1
      ((mlookup s d.slot_history).getD default).room_details =
    minsert
      ((mlast ((mlookup s d.slot_history).getD default).room_details).getD (1, default)).1
      { ((mlast ((mlookup s d.slot_history).getD default).room_details).getD
          (1, default)).2 with
        bets_made := minsert p (newBetOf c amount dir)
          ((mlast ((mlookup s d.slot_history).getD default).room_details).getD
            (1, default)).2.bets_made,
        room_bets_total_pot := u64add
          ((mlast ((mlookup s d.slot_history).getD default).room_details).getD
            (1, default)).2.room_bets_total_pot amount }
      ((mlookup s d.slot_history).getD default).room_details := by
    simp only [updatedRooms, currentRoom_lookup hsorted]
    rw [if_pos hlen]
    rfl
  have hml : mlast (updatedRooms p c amount dir
      ((mlast ((mlookup s d.slot_history).getD default).room_details).getD (1, default)).1
      ((mlookup s d.slot_history).getD default).room_details) =
    some (((mlast ((mlookup s d.slot_history).getD default).room_details).getD
        (1, default)).1,
      { ((mlast ((mlookup s d.slot_history).getD default).room_details).getD
          (1, default)).2 with
        bets_made := minsert p (newBetOf c amount dir)
          ((mlast ((mlookup s d.slot_history).getD default).room_details).getD
            (1, default)).2.bets_made,
        room_bets_total_pot := u64add
          ((mlast ((mlookup s d.slot_history).getD default).room_details).getD
            (1, default)).2.room_bets_total_pot amount }) := by
    rw [hup]
    exact mlast_minsert_ge _ hsorted (mlast_keys_le hsorted)
  simp only [placeBetBody, hd, Option.getD_some, hml]
  cases dir <;>
    simp only [placeResult, aggAfter, bumpRoom, newBetOf, hup, minsert_minsert_same]

/-- `placeBetBody` in the spill case: the ongoing room already holds 100 bets (or
more), so a fresh room with id `ongoing_room + 1` is created holding only the new
bet, with pot equal to the bet amount. -/
theorem placeBetBody_eq_spill (post : Post) (p c amount : Nat) (dir : BetDirection)
    (s : Nat) (d : HotOrNotDetails) (hd : post.hot_or_not_details = some d)
    (hsorted : SortedKeys ((mlookup s d.slot_history).getD default).room_details)
    (hlen : ¬ ((mlast ((mlookup s d.slot_history).getD default).room_details).getD
      (1, default)).2.bets_made.length < 100)
    (hw : ((mlast ((mlookup s d.slot_history).getD default).room_details).getD
      (1, default)).1 + 1 < U64MOD) :
    placeBetBody post p c amount dir s
        ((mlast ((mlookup s d.slot_history).getD default).room_details).getD (1, default)).1 =
      placeResult post d (aggAfter d.aggregate_stats amount dir) s
        (minsert
          (((mlast ((mlookup s d.slot_history).getD default).room_details).getD
            (1, default)).1 + 1)
          (bumpRoom ⟨[(p, newBetOf c amount dir)], .BetOngoing, amount, 0, 0⟩ dir)
          ((mlookup s d.slot_history).getD default).room_details) := by
  have hne : ((mlookup s d.slot_history).getD default).room_details ≠ [] := by
    intro hnil
    rw [hnil] at hlen
    exact hlen (by decide)
  obtain ⟨e, hml0⟩ : ∃ e, mlast ((mlookup s d.slot_history).getD default).room_details
      = some e := by
    cases hml0 : mlast ((mlookup s d.slot_history).getD default).room_details with
    | none => exact absurd (mlast_eq_none.mp hml0) hne
    | some e => exact ⟨e, rfl⟩
  have hself : minsert
      ((mlast ((mlookup s d.slot_history).getD default).room_details).getD (1, default)).1
      ((mlast ((mlookup s d.slot_history).getD default).room_details).getD (1, default)).2
      ((mlookup s d.slot_history).getD default).room_details =
      ((mlookup s d.slot_history).getD default).room_details := by
    rw [hml0]
    exact minsert_self_of_lookup hsorted
      (by simpa using mlookup_of_sorted_mem hsorted (mlast_mem hml0))
  have hup : updatedRooms p c amount dir
      ((mlast ((mlookup s d.slot_history).getD default).room_details).getD (1, default)).1
      ((mlookup s d.slot_history).getD default).room_details =
    minsert
      (u64add ((mlast ((mlookup s d.slot_history).getD default).room_details).getD
        (1, default)).1 1)
      ⟨minsert p (newBetOf c amount dir) [], .BetOngoing, amount, 0, 0⟩
      ((mlookup s d.slot_history).getD default).room_details := by
    simp only [updatedRooms, currentRoom_lookup hsorted]
    rw [if_neg hlen, hself]
    rfl
  have hadd : u64add ((mlast ((mlookup s d.slot_history).getD default).room_details).getD
      (1, default)).1 1 =
    ((mlast ((mlookup s d.slot_history).getD default).room_details).getD (1, default)).1
      + 1 := u64add_eq hw
  have hml : mlast (updatedRooms p c amount dir
      ((mlast ((mlookup s d.slot_history).getD default).room_details).getD (1, default)).1
      ((mlookup s d.slot_history).getD default).room_details) =
    some (((mlast ((mlookup s d.slot_history).getD default).room_details).getD
        (1, default)).1 + 1,
      ⟨minsert p (newBetOf c amount dir) [], .BetOngoing, amount, 0, 0⟩) := by
    rw [hup, hadd]
    exact mlast_minsert_ge _ hsorted
      (fun e he => Nat.le_succ_of_le (mlast_keys_le hsorted e he))
  simp only [placeBetBody, hd, Option.getD_some, hml]
  cases dir <;>
    (simp only [placeResult, aggAfter, bumpRoom, newBetOf, hup, hadd,
      minsert_minsert_same]; rfl)

/-- Inversion of a successful `place_hot_or_not_bet`: the three guards necessarily
passed and the mutation body produced the result. -/
theorem place_success_inversion {post : Post} {p c amount : Nat} {dir : BetDirection}
    {now : Nat} {status : BettingStatus} {post1 : Post}
    (h : post.place_hot_or_not_bet p c amount dir now = some (.success status post1)) :
    p ≠ anonymousPrincipal ∧
    now - post.created_at ≤ TOTAL_DURATION_OF_ALL_SLOTS_IN_SECONDS ∧
    ∃ d, post.hot_or_not_details = some d ∧ scanForPrincipal d p = false ∧
      placeBetBody post p c amount dir (ongoingSlotOf (now - post.created_at))
          (currentRoomOf d (ongoingSlotOf (now - post.created_at))).1 =
        some (.success status post1) := by
  by_cases hanon : p = anonymousPrincipal
  · rw [place_anon_eq post p c amount dir now hanon] at h
    simp only [Option.some.injEq] at h
    exact PlaceBetOutcome.noConfusion h
  · by_cases hopen : now - post.created_at ≤ TOTAL_DURATION_OF_ALL_SLOTS_IN_SECONDS
    · cases hdet : post.hot_or_not_details with
      | none =>
        rw [place_missing_eq post p c amount dir now hanon hopen hdet] at h
        exact Option.noConfusion h
      | some d =>
        cases hscan : scanForPrincipal d p with
        | false =>
          refine ⟨hanon, hopen, d, rfl, hscan, ?_⟩
          rw [← place_to_body post p c amount dir now d hdet hanon hopen hscan]
          exact h
        | true =>
          rw [place_already_eq post p c amount dir now d hdet hanon hopen hscan] at h
          simp only [Option.some.injEq] at h
          exact PlaceBetOutcome.noConfusion h
    · rw [place_closed_eq post p c amount dir now hanon (by omega)] at h
      simp only [Option.some.injEq] at h
      exact PlaceBetOutcome.noConfusion h

/-- Claim C4: a successful `place_hot_or_not_bet` into slot `s` whose current
(highest-id) room `r` holds strictly fewer than 100 bets inserts the new bet into
room `r` and grows that room's `room_bets_total_pot` by the bet amount; when room `r`
already holds exactly 100 bets, a new room `r + 1` is created in slot `s` containing
only the new bet, with pot equal to the bet amount, and the returned `BettingStatus`
reports `ongoing_room = r + 1` and `number_of_participants = 1`. -/
theorem claim_C4_room_capacity_spill (post : Post) (p c amount : Nat) (dir : BetDirection)
    (now : Nat) (status : BettingStatus) (post1 : Post)
    (d : HotOrNotDetails) (s r : Nat) (room0 : RoomDetails)
    (hd : post.hot_or_not_details = some d)
    (hs : s = ongoingSlotOf (now - post.created_at))
    (hr : (r, room0) =
      (mlast ((mlookup s d.slot_history).getD default).room_details).getD (1, default))
    (hsorted : SortedKeys ((mlookup s d.slot_history).getD default).room_details)
    (hsucc : post.place_hot_or_not_bet p c amount dir now = some (.success status post1)) :
    (room0.bets_made.length < 100 →
      ∃ d1, post1.hot_or_not_details = some d1 ∧
      ∃ slot1, mlookup s d1.slot_history = some slot1 ∧
      ∃ room1, mlookup r slot1.room_details = some room1 ∧
        room1.bets_made = minsert p ⟨amount, dir, .NotCalculatedYet, c⟩ room0.bets_made ∧
        room1.room_bets_total_pot = u64add room0.room_bets_total_pot amount ∧
        (room0.room_bets_total_pot + amount < U64MOD →
          room1.room_bets_total_pot = room0.room_bets_total_pot + amount)) ∧
    (room0.bets_made.length = 100 → SortedKeys d.slot_history →
      (∀ e ∈ d.slot_history, e.1 ≤ s) → r + 1 < U64MOD →
      status = .BettingOpen post.created_at 1 s (r + 1) (some true) ∧
      ∃ d1, post1.hot_or_not_details = some d1 ∧
      ∃ slot1, mlookup s d1.slot_history = some slot1 ∧
      ∃ room1, mlookup (r + 1) slot1.room_details = some room1 ∧
        room1.bets_made = [(p, ⟨amount, dir, .NotCalculatedYet, c⟩)] ∧
        room1.room_bets_total_pot = amount) := by
  obtain ⟨hp, hopen, d', hd', hscan, hbody⟩ := place_success_inversion hsucc
  rw [hd] at hd'
  obtain rfl : d = d' := Option.some.injEq .. ▸ hd'
  subst hs
  have hr1 : r =
      ((mlast ((mlookup (ongoingSlotOf (now - post.created_at)) d.slot_history).getD
        default).room_details).getD (1, default)).1 := congrArg Prod.fst hr
  have hr2 : room0 =
      ((mlast ((mlookup (ongoingSlotOf (now - post.created_at)) d.slot_history).getD
        default).room_details).getD (1, default)).2 := congrArg Prod.snd hr
  subst hr1
  subst hr2
  simp only [currentRoomOf] at hbody
  constructor
  · intro hlen
    rw [placeBetBody_eq_small post p c amount dir _ d hd hsorted hlen] at hbody
    have hshape := placeResult_success_shape hbody
    refine ⟨_, by rw [hshape], _, mlookup_minsert_self _ _ _, _,
      mlookup_minsert_self _ _ _, ?_, ?_, ?_⟩
    · rw [bumpRoom_bets]
      rfl
    · rw [bumpRoom_pot]
    · intro hof
      rw [bumpRoom_pot]
      exact u64add_eq hof
  · intro hlen hhist hkeys hw
    rw [placeBetBody_eq_spill post p c amount dir _ d hd hsorted (by omega) hw] at hbody
    have hshape := placeResult_success_shape hbody
    have hml1 : mlast (minsert (ongoingSlotOf (now - post.created_at))
        (⟨minsert
          (((mlast ((mlookup (ongoingSlotOf (now - post.created_at))
            d.slot_history).getD default).room_details).getD (1, default)).1 + 1)
          (bumpRoom ⟨[(p, newBetOf c amount dir)], .BetOngoing, amount, 0, 0⟩ dir)
          ((mlookup (ongoingSlotOf (now - post.created_at))
            d.slot_history).getD default).room_details⟩ : SlotDetails)
        d.slot_history) =
      some ((ongoingSlotOf (now - post.created_at)),
        (⟨minsert
          (((mlast ((mlookup (ongoingSlotOf (now - post.created_at))
            d.slot_history).getD default).room_details).getD (1, default)).1 + 1)
          (bumpRoom ⟨[(p, newBetOf c amount dir)], .BetOngoing, amount, 0, 0⟩ dir)
          ((mlookup (ongoingSlotOf (now - post.created_at))
            d.slot_history).getD default).room_details⟩ : SlotDetails)) :=
      mlast_minsert_ge _ hhist hkeys
    have hml2 : mlast (minsert
        (((mlast ((mlookup (ongoingSlotOf (now - post.created_at))
          d.slot_history).getD default).room_details).getD (1, default)).1 + 1)
        (bumpRoom ⟨[(p, newBetOf c amount dir)], .BetOngoing, amount, 0, 0⟩ dir)
        ((mlookup (ongoingSlotOf (now - post.created_at))
          d.slot_history).getD default).room_details) =
      some ((((mlast ((mlookup (ongoingSlotOf (now - post.created_at))
          d.slot_history).getD default).room_details).getD (1, default)).1 + 1),
        bumpRoom ⟨[(p, newBetOf c amount dir)], .BetOngoing, amount, 0, 0⟩ dir) :=
      mlast_minsert_ge _ hsorted
        (fun e he => Nat.le_succ_of_le (mlast_keys_le hsorted e he))
    rw [placeResult, hml1] at hbody
    simp only [hml2] at hbody
    rw [bumpRoom_bets] at hbody
    simp only [Option.some.injEq, PlaceBetOutcome.success.injEq] at hbody
    obtain ⟨hstatus, -⟩ := hbody
    constructor
    · rw [← hstatus]
      rfl
    · refine ⟨_, by rw [hshape], _, mlookup_minsert_self _ _ _, _,
        mlookup_minsert_self _ _ _, ?_, ?_⟩
      · rw [bumpRoom_bets]
        rfl
      · rw [bumpRoom_pot]

/-- A full room of 100 Hot bets of 10 each, used by the claim C4 witness. -/
def bigBetsC4 : List (Nat × BetDetails) :=
  (List.range 100).map fun i => (i + 1, ⟨10, .Hot, .NotCalculatedYet, 1⟩)

/-- The full (100-bet) room of the claim C4 witness. -/
def roomC4 : RoomDetails := ⟨bigBetsC4, .BetOngoing, 1000, 100, 0⟩

/-- Engine state of the claim C4 witness: slot 1 holds the single full room 1. -/
def detailsC4 : HotOrNotDetails := ⟨0, ⟨100, 0, 1000⟩, [(1, ⟨[(1, roomC4)]⟩)]⟩

/-- The post of the claim C4 witness. -/
def postC4 : Post := ⟨0, 0, some detailsC4⟩

/-- The post state after the 101st bet spills into room 2 of slot 1. -/
def postC4after : Post :=
  ⟨0, 0, some ⟨0, ⟨101, 0, 1010⟩,
    [(1, ⟨[(1, roomC4),
           (2, ⟨[(500, ⟨10, .Hot, .NotCalculatedYet, 7⟩)], .BetOngoing, 10, 1, 0⟩)]⟩)]⟩⟩

theorem claim_C4_room_capacity_spill_witness :
    (roomC4.bets_made.length < 100 →
      ∃ d1, postC4after.hot_or_not_details = some d1 ∧
      ∃ slot1, mlookup 1 d1.slot_history = some slot1 ∧
      ∃ room1, mlookup 1 slot1.room_details = some room1 ∧
        room1.bets_made = minsert 500 ⟨10, .Hot, .NotCalculatedYet, 7⟩ roomC4.bets_made ∧
        room1.room_bets_total_pot = u64add roomC4.room_bets_total_pot 10 ∧
        (roomC4.room_bets_total_pot + 10 < U64MOD →
          room1.room_bets_total_pot = roomC4.room_bets_total_pot + 10)) ∧
    (roomC4.bets_made.length = 100 → SortedKeys detailsC4.slot_history →
      (∀ e ∈ detailsC4.slot_history, e.1 ≤ 1) → 1 + 1 < U64MOD →
      (.BettingOpen 0 1 1 2 (some true) : BettingStatus) =
        .BettingOpen postC4.created_at 1 1 (1 + 1) (some true) ∧
      ∃ d1, postC4after.hot_or_not_details = some d1 ∧
      ∃ slot1, mlookup 1 d1.slot_history = some slot1 ∧
      ∃ room1, mlookup (1 + 1) slot1.room_details = some room1 ∧
        room1.bets_made = [(500, ⟨10, .Hot, .NotCalculatedYet, 7⟩)] ∧
        room1.room_bets_total_pot = 10) :=
  claim_C4_room_capacity_spill postC4 500 7 10 .Hot 0
    (.BettingOpen 0 1 1 2 (some true)) postC4after detailsC4 1 1 roomC4
    rfl (by decide) (by decide) (by decide) (by decide)

/-- Claim C7: `place_hot_or_not_bet` evaluates its failure modes in a fixed order —
anonymous sentinel first (`UserNotLoggedIn`), then the betting status for the current
time (`BettingClosed`), then the post-wide participation flag
(`UserAlreadyParticipatedInThisPost`) — and succeeds otherwise. -/
theorem claim_C7_error_order (post : Post) (p c amount : Nat) (dir : BetDirection)
    (now : Nat) (_hc : post.created_at ≤ now) :
    (p = anonymousPrincipal →
      post.place_hot_or_not_bet p c amount dir now = some (.failure .UserNotLoggedIn)) ∧
    (p ≠ anonymousPrincipal → 172800 < now - post.created_at →
      post.place_hot_or_not_bet p c amount dir now = some (.failure .BettingClosed)) ∧
    (∀ d, p ≠ anonymousPrincipal → now - post.created_at ≤ 172800 →
      post.hot_or_not_details = some d → scanForPrincipal d p = true →
      post.place_hot_or_not_bet p c amount dir now =
        some (.failure .UserAlreadyParticipatedInThisPost)) ∧
    (∀ d, p ≠ anonymousPrincipal → now - post.created_at ≤ 172800 →
      post.hot_or_not_details = some d → scanForPrincipal d p = false →
      (∀ e ∈ d.slot_history, e.2.room_details ≠ []) →
      ∃ status post1,
        post.place_hot_or_not_bet p c amount dir now = some (.success status post1)) := by
  refine ⟨?_, ?_, ?_, ?_⟩
  · intro hp
    unfold Post.place_hot_or_not_bet
    rw [if_pos hp]
  · intro hp hclosed
    unfold Post.place_hot_or_not_bet
    rw [if_neg hp, get_status_closed post now p (by rw [total_window_eq]; exact hclosed)]
  · intro d hp hopen hd hscan
    unfold Post.place_hot_or_not_bet
    rw [if_neg hp,
      get_status_open_named post now p d hd hp (by rw [total_window_eq]; exact hopen),
      hscan]
  · intro d hp hopen hd hscan hne
    rw [place_to_body post p c amount dir now d hd hp
      (by rw [total_window_eq]; exact hopen) hscan]
    exact placeBetBody_succeeds post p c amount dir _ _ d hd hne

/-- Concrete post used by the claim C7 witness: principal 5 has already bet. -/
def postC7 : Post :=
  ⟨0, 0, some ⟨0, ⟨1, 0, 10⟩,
    [(1, ⟨[(1, ⟨[(5, ⟨10, .Hot, .NotCalculatedYet, 5⟩)], .BetOngoing, 10, 1, 0⟩)]⟩)]⟩⟩

theorem claim_C7_error_order_witness :
    ((7 : Nat) = anonymousPrincipal →
      postC7.place_hot_or_not_bet 7 7 20 .Not 50 = some (.failure .UserNotLoggedIn)) ∧
    ((7 : Nat) ≠ anonymousPrincipal → 172800 < 50 - postC7.created_at →
      postC7.place_hot_or_not_bet 7 7 20 .Not 50 = some (.failure .BettingClosed)) ∧
    (∀ d, (7 : Nat) ≠ anonymousPrincipal → 50 - postC7.created_at ≤ 172800 →
      postC7.hot_or_not_details = some d → scanForPrincipal d 7 = true →
      postC7.place_hot_or_not_bet 7 7 20 .Not 50 =
        some (.failure .UserAlreadyParticipatedInThisPost)) ∧
    (∀ d, (7 : Nat) ≠ anonymousPrincipal → 50 - postC7.created_at ≤ 172800 →
      postC7.hot_or_not_details = some d → scanForPrincipal d 7 = false →
      (∀ e ∈ d.slot_history, e.2.room_details ≠ []) →
      ∃ status post1,
        postC7.place_hot_or_not_bet 7 7 20 .Not 50 = some (.success status post1)) :=
  claim_C7_error_order postC7 7 7 20 .Not 50 (by decide)

/-! ### Claims about the status query -/

/-- Claim C2 counterexample: at `elapsed = 172_800` (still open, by the inclusive
bound) the code reports `ongoing_slot = 49`, not the value `48` that clamping the
quantity `(elapsed / 3600) + 1` to `[1, 48]` would give. -/
theorem claim_C2_ongoing_slot_counterexample :
    (Post.mk 0 0 (some ⟨0, ⟨0, 0, 0⟩, []⟩)).get_hot_or_not_betting_status_for_this_post
        172800 0 = some (.BettingOpen 0 0 49 1 none) ∧
    ¬ (49 = max 1 (min ((172800 - 0) / 3600 + 1) 48)) := by
  constructor
  · rfl
  · decide

/-- Claim C2 as amended: within the open window the returned `ongoing_slot` equals
`(elapsed / 3600) + 1` with no clamping applied; the value lies in `[1, 49]`
(it is `49` exactly at the inclusive boundary `elapsed = 172_800`). -/
theorem claim_C2_ongoing_slot_amended (post : Post) (now viewer : Nat)
    (d : HotOrNotDetails) (hd : post.hot_or_not_details = some d)
    (_hc : post.created_at ≤ now)
    (hopen : now - post.created_at ≤ 172800) :
    ∃ np rid fl,
      post.get_hot_or_not_betting_status_for_this_post now viewer =
        some (.BettingOpen post.created_at np ((now - post.created_at) / 3600 + 1) rid fl) ∧
      1 ≤ (now - post.created_at) / 3600 + 1 ∧
      (now - post.created_at) / 3600 + 1 ≤ 49 := by
  have hopen' : now - post.created_at ≤ TOTAL_DURATION_OF_ALL_SLOTS_IN_SECONDS := by
    rw [total_window_eq]; exact hopen
  have hslot := ongoingSlotOf_eq hopen
  have hbound : (now - post.created_at) / 3600 + 1 ≤ 49 := by omega
  by_cases hv : viewer = anonymousPrincipal
  · subst hv
    have h := get_status_open_anon post now hopen'
    rw [hslot] at h
    exact ⟨_, _, _, h, by omega, hbound⟩
  · have h := get_status_open_named post now viewer d hd hv hopen'
    rw [hslot] at h
    exact ⟨_, _, _, h, by omega, hbound⟩

theorem claim_C2_ongoing_slot_amended_witness :
    ∃ np rid fl,
      (Post.mk 0 100 (some ⟨0, ⟨0, 0, 0⟩, []⟩)).get_hot_or_not_betting_status_for_this_post
          (100 + 7205) 3 =
        some (.BettingOpen 100 np (((100 + 7205) - 100) / 3600 + 1) rid fl) ∧
      1 ≤ ((100 + 7205) - 100) / 3600 + 1 ∧
      ((100 + 7205) - 100) / 3600 + 1 ≤ 49 :=
  claim_C2_ongoing_slot_amended (Post.mk 0 100 (some ⟨0, ⟨0, 0, 0⟩, []⟩)) (100 + 7205) 3
    ⟨0, ⟨0, 0, 0⟩, []⟩ rfl (by norm_num) (by norm_num)

/-- Claim C3 counterexample: within the open window (`elapsed = 5 ≤ 172_800`) the
query does not return a `BettingOpen` value when `hot_or_not_details` is absent and
the viewer is not anonymous — the unconditional `unwrap` inside
`has_this_principal_already_bet_on_this_post` panics (modelled as `none`). -/
theorem claim_C3_boundary_counterexample :
    (5 : Nat) - 0 ≤ 172800 ∧
    ¬ ∃ a b c e f,
      (Post.mk 0 0 none).get_hot_or_not_betting_status_for_this_post 5 1 =
        some (.BettingOpen a b c e f) := by
  refine ⟨by norm_num, ?_⟩
  rintro ⟨a, b, c, e, f, h⟩
  have h0 : (Post.mk 0 0 none).get_hot_or_not_betting_status_for_this_post 5 1 = none := rfl
  rw [h0] at h
  exact Option.noConfusion h

/-- Claim C3 as amended: provided the post's `hot_or_not_details` is present or the
viewer is anonymous, `elapsed ≤ 172_800` (the boundary inclusive) yields a
`BettingOpen` variant, and `elapsed > 172_800` yields `BettingClosed`
(the closed case needs no proviso). -/
theorem claim_C3_boundary_amended (post : Post) (now viewer : Nat)
    (_hc : post.created_at ≤ now)
    (hdet : post.hot_or_not_details.isSome ∨ viewer = anonymousPrincipal) :
    (now - post.created_at ≤ 172800 →
      ∃ np s rid fl,
        post.get_hot_or_not_betting_status_for_this_post now viewer =
          some (.BettingOpen post.created_at np s rid fl)) ∧
    (172800 < now - post.created_at →
      post.get_hot_or_not_betting_status_for_this_post now viewer =
        some .BettingClosed) := by
  constructor
  · intro hopen
    have hopen' : now - post.created_at ≤ TOTAL_DURATION_OF_ALL_SLOTS_IN_SECONDS := by
      rw [total_window_eq]; exact hopen
    by_cases hv : viewer = anonymousPrincipal
    · subst hv
      exact ⟨_, _, _, _, get_status_open_anon post now hopen'⟩
    · rcases hdet with hdet | hdet
      · obtain ⟨d, hd⟩ := Option.isSome_iff_exists.mp hdet
        exact ⟨_, _, _, _, get_status_open_named post now viewer d hd hv hopen'⟩
      · exact absurd hdet hv
  · intro hclosed
    exact get_status_closed post now viewer (by rw [total_window_eq]; exact hclosed)

theorem claim_C3_boundary_amended_witness :
    ((172800 + 100) - 100 ≤ 172800 →
      ∃ np s rid fl,
        (Post.mk 0 100 (some ⟨0, ⟨0, 0, 0⟩, []⟩)).get_hot_or_not_betting_status_for_this_post
            (172800 + 100) 6 =
          some (.BettingOpen 100 np s rid fl)) ∧
    (172800 < (172800 + 100) - 100 →
      (Post.mk 0 100 (some ⟨0, ⟨0, 0, 0⟩, []⟩)).get_hot_or_not_betting_status_for_this_post
          (172800 + 100) 6 =
        some .BettingClosed) :=
  claim_C3_boundary_amended (Post.mk 0 100 (some ⟨0, ⟨0, 0, 0⟩, []⟩)) (172800 + 100) 6
    (by norm_num) (Or.inl rfl)

/-- Claim C8 counterexample: the status query is not total — with absent
`hot_or_not_details` and a non-anonymous viewer the participation scan `unwrap`s
`None` and the call fails (modelled as `none`) instead of returning a
`BettingStatus`. -/
theorem claim_C8_total_status_counterexample :
    ¬ ∃ b, (Post.mk 0 0 none).get_hot_or_not_betting_status_for_this_post 0 2 = some b := by
  rintro ⟨b, h⟩
  have h0 : (Post.mk 0 0 none).get_hot_or_not_betting_status_for_this_post 0 2 = none := rfl
  rw [h0] at h
  exact Option.noConfusion h

/-- Claim C8 as amended: within the open window, absent details and an absent slot
entry are treated as empty (room id 1, zero participants) for the open-status fields;
the participation flag is `None` exactly when the viewer is the anonymous sentinel and
otherwise is `Some` of the post-wide scan over every `bets_made` map — but when the
viewer is not anonymous the scan requires `hot_or_not_details` to be present, and the
call fails (panics) when it is absent. -/
theorem claim_C8_status_amended (post : Post) (now viewer : Nat)
    (_hc : post.created_at ≤ now)
    (hopen : now - post.created_at ≤ 172800) :
    (viewer = anonymousPrincipal → post.hot_or_not_details = none →
      post.get_hot_or_not_betting_status_for_this_post now viewer =
        some (.BettingOpen post.created_at 0 (ongoingSlotOf (now - post.created_at)) 1 none)) ∧
    (viewer = anonymousPrincipal → ∀ d, post.hot_or_not_details = some d →
      mlookup (ongoingSlotOf (now - post.created_at)) d.slot_history = none →
      post.get_hot_or_not_betting_status_for_this_post now viewer =
        some (.BettingOpen post.created_at 0 (ongoingSlotOf (now - post.created_at)) 1 none)) ∧
    (viewer ≠ anonymousPrincipal → ∀ d, post.hot_or_not_details = some d →
      post.get_hot_or_not_betting_status_for_this_post now viewer =
        some (.BettingOpen post.created_at
          ((currentRoomOf d (ongoingSlotOf (now - post.created_at))).2.bets_made.length % 256)
          (ongoingSlotOf (now - post.created_at))
          (currentRoomOf d (ongoingSlotOf (now - post.created_at))).1
          (some (d.slot_history.any fun se => se.2.room_details.any fun re =>
            re.2.bets_made.any fun be => be.1 = viewer)))) ∧
    (viewer ≠ anonymousPrincipal → post.hot_or_not_details = none →
      post.get_hot_or_not_betting_status_for_this_post now viewer = none) := by
  have hopen' : now - post.created_at ≤ TOTAL_DURATION_OF_ALL_SLOTS_IN_SECONDS := by
    rw [total_window_eq]; exact hopen
  refine ⟨?_, ?_, ?_, ?_⟩
  · intro hv hd
    subst hv
    rw [get_status_open_anon post now hopen', hd]
    simp only [currentRoomOf, mlookup, mlast, Option.getD_none, Option.getD_some]
    rfl
  · intro hv d hd hslot
    subst hv
    rw [get_status_open_anon post now hopen', hd]
    simp only [currentRoomOf, hslot, mlast, Option.getD_none, Option.getD_some]
    rfl
  · intro hv d hd
    rw [get_status_open_named post now viewer d hd hv hopen']
    simp [scanForPrincipal]
  · intro hv hd
    exact get_status_open_missing post now viewer hd hv hopen'

theorem claim_C8_status_amended_witness :
    ((0 : Nat) = anonymousPrincipal → (Post.mk 0 0 none).hot_or_not_details = none →
      (Post.mk 0 0 none).get_hot_or_not_betting_status_for_this_post 3 0 =
        some (.BettingOpen 0 0 (ongoingSlotOf (3 - 0)) 1 none)) ∧
    ((0 : Nat) = anonymousPrincipal → ∀ d, (Post.mk 0 0 none).hot_or_not_details = some d →
      mlookup (ongoingSlotOf (3 - 0)) d.slot_history = none →
      (Post.mk 0 0 none).get_hot_or_not_betting_status_for_this_post 3 0 =
        some (.BettingOpen 0 0 (ongoingSlotOf (3 - 0)) 1 none)) ∧
    ((0 : Nat) ≠ anonymousPrincipal → ∀ d, (Post.mk 0 0 none).hot_or_not_details = some d →
      (Post.mk 0 0 none).get_hot_or_not_betting_status_for_this_post 3 0 =
        some (.BettingOpen 0
          ((currentRoomOf d (ongoingSlotOf (3 - 0))).2.bets_made.length % 256)
          (ongoingSlotOf (3 - 0))
          (currentRoomOf d (ongoingSlotOf (3 - 0))).1
          (some (d.slot_history.any fun se => se.2.room_details.any fun re =>
            re.2.bets_made.any fun be => be.1 = 0)))) ∧
    ((0 : Nat) ≠ anonymousPrincipal → (Post.mk 0 0 none).hot_or_not_details = none →
      (Post.mk 0 0 none).get_hot_or_not_betting_status_for_this_post 3 0 = none) :=
  claim_C8_status_amended (Post.mk 0 0 none) 3 0 (by norm_num) (by norm_num)

/-! ### Claim C9: the inductive bookkeeping invariant -/

theorem u64mod_val : U64MOD = 18446744073709551616 := by
  norm_num [U64MOD]

/-- Per-room strengthened invariant: bounded room id, consistent bookkeeping, and
bounded bet amounts. -/
def RoomStrong (B : Nat) (rid : Nat) (rd : RoomDetails) : Prop :=
  rid ≤ B ∧ RoomConsistent rd ∧ ∀ e ∈ rd.bets_made, e.2.amount ≤ 2 ^ 56

/-- Per-slot strengthened invariant: sorted room keys and `RoomStrong` rooms. -/
def SlotStrong (B : Nat) (sd : SlotDetails) : Prop :=
  SortedKeys sd.room_details ∧ ∀ e ∈ sd.room_details, RoomStrong B e.1 e.2

/-- Post-level strengthened invariant over every slot of the history. -/
def PostStrong (B : Nat) (post : Post) : Prop :=
  ∀ d, post.hot_or_not_details = some d → ∀ e ∈ d.slot_history, SlotStrong B e.2

theorem roomStrong_mono {B B' rid : Nat} {rd : RoomDetails}
    (h : RoomStrong B rid rd) (hB : B ≤ B') : RoomStrong B' rid rd :=
  ⟨le_trans h.1 hB, h.2.1, h.2.2⟩

theorem slotStrong_mono {B B' : Nat} {sd : SlotDetails}
    (h : SlotStrong B sd) (hB : B ≤ B') : SlotStrong B' sd :=
  ⟨h.1, fun e he => roomStrong_mono (h.2 e he) hB⟩

theorem postStrong_mono {B B' : Nat} {post : Post}
    (h : PostStrong B post) (hB : B ≤ B') : PostStrong B' post :=
  fun d hd e he => slotStrong_mono (h d hd e he) hB

theorem sortedKeys_iff {α : Type} {l : List (Nat × α)} :
    SortedKeys l ↔ List.Pairwise (· < ·) (l.map Prod.fst) := by
  rw [SortedKeys, List.pairwise_map]

theorem scan_false_fresh {d : HotOrNotDetails} {p : Nat}
    (h : scanForPrincipal d p = false) :
    ∀ se ∈ d.slot_history, ∀ re ∈ se.2.room_details, ∀ be ∈ re.2.bets_made,
      be.1 ≠ p := by
  intro se hse re hre be hbe hp
  simp only [scanForPrincipal, List.any_eq_false, Bool.not_eq_true,
    decide_eq_true_eq] at h
  exact h se hse re hre be hbe hp

theorem betAmountsSum_le {l : List (Nat × BetDetails)} {M : Nat}
    (h : ∀ e ∈ l, e.2.amount ≤ M) : betAmountsSum l ≤ l.length * M := by
  induction l with
  | nil => simp [betAmountsSum]
  | cons hd t ih =>
    have h1 := h hd (by simp)
    have h2 := ih fun e he => h e (List.mem_cons_of_mem _ he)
    simp only [betAmountsSum, List.map_cons, List.sum_cons, List.length_cons] at *
    calc hd.2.amount + (t.map fun e => e.2.amount).sum ≤ M + t.length * M :=
          Nat.add_le_add h1 h2
      _ = (t.length + 1) * M := by ring

theorem not_mem_keys_of_ne {l : List (Nat × BetDetails)} {p : Nat}
    (h : ∀ be ∈ l, be.1 ≠ p) : p ∉ l.map Prod.fst := by
  intro hp
  obtain ⟨be, hbe, hfst⟩ := List.mem_map.mp hp
  exact h be hbe hfst

/-- Inserting a fresh bet into a consistent, non-full room keeps it consistent. -/
theorem insert_room_strong {rd : RoomDetails} {p c amount : Nat} {dir : BetDirection}
    (hcons : RoomConsistent rd) (hamts : ∀ e ∈ rd.bets_made, e.2.amount ≤ 2 ^ 56)
    (hfresh : p ∉ rd.bets_made.map Prod.fst)
    (hlen : rd.bets_made.length < 100) (hamt : amount ≤ 2 ^ 56) :
    RoomConsistent (bumpRoom { rd with
      bets_made := minsert p (newBetOf c amount dir) rd.bets_made,
      room_bets_total_pot := u64add rd.room_bets_total_pot amount } dir) ∧
    ∀ e ∈ (bumpRoom { rd with
      bets_made := minsert p (newBetOf c amount dir) rd.bets_made,
      room_bets_total_pot := u64add rd.room_bets_total_pot amount } dir).bets_made,
      e.2.amount ≤ 2 ^ 56 := by
  obtain ⟨hlen0, hle0, hpot0⟩ := hcons
  have hm : (minsert p (newBetOf c amount dir) rd.bets_made).length =
      rd.bets_made.length + 1 := length_minsert_fresh _ hfresh
  have hsum : betAmountsSum (minsert p (newBetOf c amount dir) rd.bets_made) =
      amount + betAmountsSum rd.bets_made := betAmountsSum_minsert_fresh _ hfresh
  have hsle : betAmountsSum rd.bets_made ≤ 100 * 2 ^ 56 := by
    calc betAmountsSum rd.bets_made ≤ rd.bets_made.length * 2 ^ 56 :=
          betAmountsSum_le hamts
      _ ≤ 100 * 2 ^ 56 := Nat.mul_le_mul_right _ (by omega)
  have hpotadd : u64add rd.room_bets_total_pot amount =
      rd.room_bets_total_pot + amount := by
    apply u64add_eq
    rw [u64mod_val]
    have : (2 : Nat) ^ 56 = 72057594037927936 := by norm_num
    omega
  have hhot : rd.total_hot_bets ≤ 100 := by omega
  have hnot : rd.total_not_bets ≤ 100 := by omega
  have hone : ∀ n : Nat, n ≤ 100 → u64add n 1 = n + 1 := by
    intro n hn
    apply u64add_eq
    rw [u64mod_val]
    omega
  constructor
  · cases dir <;>
      refine ⟨?_, ?_, ?_⟩ <;>
      simp only [bumpRoom, RoomConsistent, hm, hsum, hpotadd, hone _ hhot,
        hone _ hnot] <;>
      omega
  · cases dir <;>
      · simp only [bumpRoom]
        intro e he
        rcases mem_minsert he with he | he
        · subst he
          simpa [newBetOf] using hamt
        · exact hamts e he

/-- The freshly spilled single-bet room is consistent. -/
theorem spill_room_strong {p c amount : Nat} {dir : BetDirection}
    (hamt : amount ≤ 2 ^ 56) :
    RoomConsistent
      (bumpRoom ⟨[(p, newBetOf c amount dir)], .BetOngoing, amount, 0, 0⟩ dir) ∧
    ∀ e ∈ (bumpRoom ⟨[(p, newBetOf c amount dir)], .BetOngoing, amount, 0, 0⟩
      dir).bets_made, e.2.amount ≤ 2 ^ 56 := by
  have h1 : u64add 0 1 = 1 := by
    rw [u64add_eq]
    rw [u64mod_val]
    omega
  constructor
  · cases dir <;> exact ⟨by simp [bumpRoom, h1], by simp [bumpRoom],
      by simp [bumpRoom, betAmountsSum, newBetOf]⟩
  · cases dir <;>
      · intro e he
        simp only [bumpRoom, List.mem_singleton] at he
        subst he
        simpa [newBetOf] using hamt

theorem settleRoom_consistent {rd : RoomDetails} (h : RoomConsistent rd) :
    RoomConsistent (settleRoom rd) := by
  obtain ⟨h1, h2, h3⟩ := h
  refine ⟨?_, ?_, ?_⟩
  · rw [settleRoom_bets_length, (settleRoom_fields rd).2.1, (settleRoom_fields rd).2.2]
    exact h1
  · rw [settleRoom_bets_length]
    exact h2
  · rw [betAmountsSum_settleRoom, (settleRoom_fields rd).1]
    exact h3

theorem settleRoom_amounts {rd : RoomDetails} {M : Nat}
    (h : ∀ e ∈ rd.bets_made, e.2.amount ≤ M) :
    ∀ e ∈ (settleRoom rd).bets_made, e.2.amount ≤ M := by
  intro e he
  obtain ⟨b₀, hmem, heq⟩ := mem_settleRoom_bets he
  rw [heq, settleBet_amount]
  exact h (e.1, b₀) hmem

theorem tabulate_preserves {B : Nat} {post : Post} {canId slotId : Nat}
    {tb : TokenBalance} {now : Nat} (h : PostStrong B post) :
    PostStrong B ((post.tabulate_hot_or_not_outcome_for_slot canId slotId tb now).1) := by
  cases hd : post.hot_or_not_details with
  | none => simpa [Post.tabulate_hot_or_not_outcome_for_slot, hd] using h
  | some d =>
    cases hl : mlookup slotId d.slot_history with
    | none => simpa [Post.tabulate_hot_or_not_outcome_for_slot, hd, hl] using h
    | some sd =>
      simp only [Post.tabulate_hot_or_not_outcome_for_slot, hd, hl]
      intro d1 hd1 e he
      simp only [Option.some.injEq] at hd1
      subst hd1
      rcases mem_minsert he with he | he
      · rw [he]
        have hsd := h d hd (slotId, sd) (mlookup_some_mem hl)
        refine ⟨?_, ?_⟩
        · have hss := hsd.1
          rw [sortedKeys_iff] at hss
          rw [sortedKeys_iff]
          show List.Pairwise (· < ·)
            (((tabulateRooms canId post.id slotId now sd.room_details).1).map Prod.fst)
          rw [tabulateRooms_keys]
          exact hss
        · intro e2 he2
          obtain ⟨e₀, he₀, hfst, hsnd⟩ := tabulateRooms_mem he2
          have hR := hsd.2 e₀ he₀
          rcases hsnd with h2 | ⟨_, h2⟩
          · rw [hfst, h2]
            exact hR
          · rw [hfst, h2]
            exact ⟨hR.1, settleRoom_consistent hR.2.1, settleRoom_amounts hR.2.2⟩
      · exact h d hd e he

theorem place_preserves {B : Nat} {post : Post} {p c amount : Nat} {dir : BetDirection}
    {now : Nat} {status : BettingStatus} {post1 : Post}
    (h : PostStrong B post) (hB : B + 2 ≤ U64MOD) (hamt : amount ≤ 2 ^ 56)
    (hsucc : post.place_hot_or_not_bet p c amount dir now = some (.success status post1)) :
    PostStrong (B + 1) post1 := by
  obtain ⟨hp, hopen, d, hd, hscan, hbody⟩ := place_success_inversion hsucc
  simp only [currentRoomOf] at hbody
  have hslot : SlotStrong B ((mlookup (ongoingSlotOf (now - post.created_at))
      d.slot_history).getD default) := by
    cases hl : mlookup (ongoingSlotOf (now - post.created_at)) d.slot_history with
    | none => exact ⟨List.Pairwise.nil, fun e he => absurd he (List.not_mem_nil e)⟩
    | some sd =>
      exact h d hd (ongoingSlotOf (now - post.created_at), sd) (mlookup_some_mem hl)
  have hX : RoomConsistent ((mlast ((mlookup (ongoingSlotOf (now - post.created_at))
        d.slot_history).getD default).room_details).getD (1, default)).2 ∧
      (∀ e ∈ ((mlast ((mlookup (ongoingSlotOf (now - post.created_at))
        d.slot_history).getD default).room_details).getD (1, default)).2.bets_made,
        e.2.amount ≤ 2 ^ 56) ∧
      p ∉ ((mlast ((mlookup (ongoingSlotOf (now - post.created_at))
        d.slot_history).getD default).room_details).getD
          (1, default)).2.bets_made.map Prod.fst ∧
      ((mlast ((mlookup (ongoingSlotOf (now - post.created_at))
        d.slot_history).getD default).room_details).getD (1, default)).1 ≤ B + 1 ∧
      (((mlookup (ongoingSlotOf (now - post.created_at))
          d.slot_history).getD default).room_details ≠ [] →
        ((mlast ((mlookup (ongoingSlotOf (now - post.created_at))
          d.slot_history).getD default).room_details).getD (1, default)).1 ≤ B) := by
    cases hml : mlast ((mlookup (ongoingSlotOf (now - post.created_at))
        d.slot_history).getD default).room_details with
    | none =>
      have hnil := mlast_eq_none.mp hml
      refine ⟨by decide, fun e he => absurd he (List.not_mem_nil e),
        by intro hmem; exact absurd hmem (List.not_mem_nil p),
        Nat.succ_le_succ (Nat.zero_le B),
        fun hne => absurd hnil hne⟩
    | some e0 =>
      have he0 := mlast_mem hml
      have hR := hslot.2 e0 he0
      have hfreshb : ∀ be ∈ e0.2.bets_made, be.1 ≠ p := by
        cases hl : mlookup (ongoingSlotOf (now - post.created_at)) d.slot_history with
        | none =>
          rw [hl] at hml
          have hn : mlast ((none : Option SlotDetails).getD default).room_details =
            (none : Option (Nat × RoomDetails)) := rfl
          rw [hn] at hml
          exact Option.noConfusion hml
        | some sd =>
          rw [hl] at he0
          simp only [Option.getD_some] at he0
          exact scan_false_fresh hscan (ongoingSlotOf (now - post.created_at), sd)
            (mlookup_some_mem hl) e0 he0
      exact ⟨hR.2.1, hR.2.2, not_mem_keys_of_ne hfreshb,
        le_trans hR.1 (Nat.le_succ B), fun _ => hR.1⟩
  by_cases hlen : ((mlast ((mlookup (ongoingSlotOf (now - post.created_at))
      d.slot_history).getD default).room_details).getD (1, default)).2.bets_made.length
      < 100
  · rw [placeBetBody_eq_small post p c amount dir _ d hd hslot.1 hlen] at hbody
    have hshape := placeResult_success_shape hbody
    rw [hshape]
    intro d1 hd1 e he
    simp only [Option.some.injEq] at hd1
    subst hd1
    rcases mem_minsert he with he | he
    · rw [he]
      refine ⟨minsert_sorted _ _ hslot.1, ?_⟩
      intro e2 he2
      rcases mem_minsert he2 with he2 | he2
      · rw [he2]
        exact ⟨hX.2.2.2.1,
          (insert_room_strong hX.1 hX.2.1 hX.2.2.1 hlen hamt).1,
          (insert_room_strong hX.1 hX.2.1 hX.2.2.1 hlen hamt).2⟩
      · exact roomStrong_mono (hslot.2 e2 he2) (by omega)
    · exact slotStrong_mono (h d hd e he) (by omega)
  · have hne : ((mlookup (ongoingSlotOf (now - post.created_at))
        d.slot_history).getD default).room_details ≠ [] := by
      intro hnil
      rw [hnil] at hlen
      exact hlen (by decide)
    have hw : ((mlast ((mlookup (ongoingSlotOf (now - post.created_at))
        d.slot_history).getD default).room_details).getD (1, default)).1 + 1
        < U64MOD := by
      have := hX.2.2.2.2 hne
      omega
    rw [placeBetBody_eq_spill post p c amount dir _ d hd hslot.1 hlen hw] at hbody
    have hshape := placeResult_success_shape hbody
    rw [hshape]
    intro d1 hd1 e he
    simp only [Option.some.injEq] at hd1
    subst hd1
    rcases mem_minsert he with he | he
    · rw [he]
      refine ⟨minsert_sorted _ _ hslot.1, ?_⟩
      intro e2 he2
      rcases mem_minsert he2 with he2 | he2
      · rw [he2]
        refine ⟨?_, (spill_room_strong hamt).1, (spill_room_strong hamt).2⟩
        have := hX.2.2.2.2 hne
        omega
      · exact roomStrong_mono (hslot.2 e2 he2) (by omega)
    · exact slotStrong_mono (h d hd e he) (by omega)

theorem runOps_strong (ops : List EngineOp) : ∀ (B : Nat) (st : Post × TokenBalance),
    PostStrong B st.1 → B + ops.length + 1 ≤ U64MOD →
    (∀ op ∈ ops, op.amount ≤ 2 ^ 56) →
    PostStrong (B + ops.length) (ops.foldl stepOp st).1 := by
  induction ops with
  | nil =>
    intro B st h _ _
    simpa using h
  | cons op t ih =>
    intro B st h hB hamt
    have hstep : PostStrong (B + 1) (stepOp st op).1 := by
      cases op with
      | place p c a dirr nw =>
        cases hres : st.1.place_hot_or_not_bet p c a dirr nw with
        | none =>
          simp only [stepOp, hres]
          exact postStrong_mono h (by omega)
        | some r =>
          cases r with
          | failure err =>
            simp only [stepOp, hres]
            exact postStrong_mono h (by omega)
          | success status post1 =>
            simp only [stepOp, hres]
            refine place_preserves h ?_ (hamt (.place p c a dirr nw) (by simp)) hres
            simp only [List.length_cons] at hB
            omega
      | tabulate cid sid nw =>
        simp only [stepOp]
        exact postStrong_mono (tabulate_preserves h) (by omega)
    have hrec := ih (B + 1) (stepOp st op) hstep
      (by simp only [List.length_cons] at hB; omega)
      (fun o ho => hamt o (List.mem_cons_of_mem _ ho))
    have heq : B + 1 + t.length = B + (op :: t).length := by
      simp only [List.length_cons]
      omega
    rw [List.foldl_cons]
    exact heq ▸ hrec

/-- Claim C9: after every sequence of operations from a fresh post, every room of
every slot satisfies `|bets_made| = total_hot_bets + total_not_bets ≤ 100` and
`room_bets_total_pot = Σ amount over bets_made` (under the spec §7 no-overflow
regime: at most `2^32` operations, each bet amount at most `2^56`). -/
theorem claim_C9_room_invariants (id created_at : Nat) (ops : List EngineOp)
    (hlen : ops.length ≤ 2 ^ 32)
    (hamt : ∀ op ∈ ops, op.amount ≤ 2 ^ 56) :
    ∀ d, ((runOps (freshPost id created_at) ops).1).hot_or_not_details = some d →
    ∀ se ∈ d.slot_history, ∀ re ∈ se.2.room_details,
      re.2.bets_made.length = re.2.total_hot_bets + re.2.total_not_bets ∧
      re.2.bets_made.length ≤ 100 ∧
      re.2.room_bets_total_pot = betAmountsSum re.2.bets_made := by
  have hfresh : PostStrong 1 (freshPost id created_at) := by
    intro d hd e he
    simp only [freshPost, Option.some.injEq] at hd
    subst hd
    exact absurd he (List.not_mem_nil e)
  have hB : 1 + ops.length + 1 ≤ U64MOD := by
    rw [u64mod_val]
    have h32 : (2 : Nat) ^ 32 = 4294967296 := by norm_num
    omega
  have hmain := runOps_strong ops 1 (freshPost id created_at, ⟨[]⟩) hfresh hB hamt
  intro d hd se hse re hre
  exact ((hmain d hd se hse).2 re hre).2.1

/-- Concrete operation sequence of the claim C9 witness: two bets into slot 1 and a
tabulation of that slot. -/
def opsC9 : List EngineOp :=
  [.place 1 1 100 .Hot 0, .place 2 2 50 .Not 5, .tabulate 9 1 3600]

/-- The settled room produced by running `opsC9` from a fresh post. -/
def roomC9 : RoomDetails :=
  ⟨[(1, ⟨100, .Hot, .Calculated 90, 1⟩), (2, ⟨50, .Not, .Calculated 45, 2⟩)],
    .Draw, 150, 1, 1⟩

/-- The engine state produced by running `opsC9` from a fresh post. -/
def detailsC9 : HotOrNotDetails := ⟨0, ⟨1, 1, 150⟩, [(1, ⟨[(1, roomC9)]⟩)]⟩

theorem claim_C9_room_invariants_witness :
    roomC9.bets_made.length = roomC9.total_hot_bets + roomC9.total_not_bets ∧
    roomC9.bets_made.length ≤ 100 ∧
    roomC9.room_bets_total_pot = betAmountsSum roomC9.bets_made :=
  claim_C9_room_invariants 0 0 opsC9 (by decide) (by decide) detailsC9 (by decide)
    (1, ⟨[(1, roomC9)]⟩) (by decide) (1, roomC9) (by decide)

theorem claim_C6_commission_events_witness :
    ((postC6.tabulate_hot_or_not_outcome_for_slot 7 1 ⟨[]⟩ 42).2).events =
      (⟨[]⟩ : TokenBalance).events ++
        (((postC6.hot_or_not_details.getD default).slot_history.headI.2.room_details).filterMap
          fun e =>
            if e.2.bet_outcome = .BetOngoing then
              some (.HotOrNotOutcomePayout (u64mul e.2.room_bets_total_pot 10 / 100)
                (.CommissionFromHotOrNotBet 7 postC6.id 1 e.1 e.2.room_bets_total_pot) 42)
            else none) ∧
    (SortedKeys ((postC6.hot_or_not_details.getD default).slot_history.headI.2.room_details) →
      List.Pairwise (· < ·)
        ((((postC6.hot_or_not_details.getD default).slot_history.headI.2.room_details).filterMap
          fun e =>
            if e.2.bet_outcome = .BetOngoing then
              some (.HotOrNotOutcomePayout (u64mul e.2.room_bets_total_pot 10 / 100)
                (.CommissionFromHotOrNotBet 7 postC6.id 1 e.1 e.2.room_bets_total_pot) 42)
            else none : List TokenEvent).map eventRoomId)) :=
  claim_C6_commission_events postC6 7 1 ⟨[]⟩ 42 _ _ rfl rfl

end HotOrNot
